import Mathlib

/-!
# A verification development for `game.js`

`game.js` is a generalised rock-paper-scissors game over an odd list of move labels.
The program builds a table of results from the cyclic order of the labels, commits to a
computer move by printing an HMAC, asks the user for a move and resolves the round.

The first part of this file is a shallow embedding of the program: plain objects keyed
by strings, the two string-to-number conversions the prompt loop relies on, the rule
generator, the `Game` class and `main`.  The second part states and proves properties
of those definitions.
-/

namespace RPS

/-! ## Values stored in the rule table -/

/-- The three result strings written by `generateRules`: `'Win'`, `'Lose'`, `'Draw'`. -/
inductive Outcome
  | Win
  | Lose
  | Draw
  deriving DecidableEq, Repr

/-! ## Plain objects used as dictionaries -/

/-- The one property name of a plain object that is not an ordinary data slot.
`Object.prototype` carries an accessor called `__proto__`; an assignment `o[k] = v` with
this `k` runs the inherited setter instead of creating an own property, and a read runs
the getter. -/
def protoKey : String := "__proto__"

/-- First binding of `key` in a list of own properties (most recent write first). -/
def assoc {β : Type} : List (String × β) → String → Option β
  | [], _ => none
  | (k, v) :: rest, key => if k = key then some v else assoc rest key

/-- The inner object `rules[move]`, created as `{}`: its own properties, most recent
write first. -/
abbrev Row := List (String × Outcome)

/-- The assignment `row[key] = v` where `v` is one of the three result strings.  For
`key = "__proto__"` the inherited setter receives a string, which is neither an object
nor `null`, and does nothing: no own property appears. -/
def Row.set (row : Row) (key : String) (v : Outcome) : Row :=
  if key = protoKey then row else (key, v) :: row

/-- The read `row[key]`, as far as the program can tell results apart: `some v` when the
value read is the result string `v`, and `none` when it is anything else (`undefined`,
or a member inherited from `Object.prototype`; for `key = "__proto__"` the getter
returns the prototype object itself). -/
def Row.get (row : Row) (key : String) : Option Outcome :=
  if key = protoKey then none else assoc row key

/-- The outer object `rules`: one row per assigned label, most recent write first.  The
assignment `rules["__proto__"] = {}` stores the fresh row in the prototype slot of
`rules` and the read `rules["__proto__"]` hands the same row back, so at the keys the
program assigns the outer object behaves as a dictionary for every label. -/
abbrev Rules := List (String × Row)

/-- The array read `xs[i]` for an integer `i`: `undefined` (here `none`) outside
`0 .. length - 1`. -/
def arrayGet (xs : List String) (i : Int) : Option String :=
  if i < 0 then none else xs[i.toNat]?

/-- A possibly undefined string used as a property key or inside a template literal:
`undefined` turns into the text `undefined`. -/
def jsString (v : Option String) : String := v.getD "undefined"

/-! ## `RuleGenerator.generateRules` -/

/-- The body of `for (let i = 1; i <= winCount; i++)` run `n` more times from counter
`i`, on the row of the move at position `index`.  The operator `%` of the source is the
truncating remainder. -/
def rowLoop (moves : List String) (index : Nat) : Nat → Nat → Row → Row
  | 0, _, row => row
  | n + 1, i, row =>
    let moveCount : Int := moves.length
    let winIndex := Int.tmod (index + i) moveCount
    let loseIndex := Int.tmod (index - i + moveCount) moveCount
    rowLoop moves index n (i + 1)
      ((row.set (jsString (arrayGet moves winIndex)) Outcome.Win).set
        (jsString (arrayGet moves loseIndex)) Outcome.Lose)

/-- The key `this.moves[winIndex]` written with `'Win'` at counter `i`. -/
def winKey (moves : List String) (index i : Nat) : String :=
  jsString (arrayGet moves (Int.tmod (index + i) (moves.length : Int)))

/-- The key `this.moves[loseIndex]` written with `'Lose'` at counter `i`. -/
def loseKey (moves : List String) (index i : Nat) : String :=
  jsString (arrayGet moves (Int.tmod (index - i + (moves.length : Int)) (moves.length : Int)))

/-- The number of times the loop body runs.  `winCount` is the real number
`(moveCount - 1) / 2` and the counter runs over the integers `1 ≤ i ≤ winCount`, of
which there are `(moveCount - 1) / 2` rounded down (none for an empty list). -/
def winCount (moves : List String) : Nat := (moves.length - 1) / 2

/-- One pass of the `forEach` callback for `move` at position `index`: the row is
created empty, filled by the loop, and its diagonal entry written last. -/
def generateRow (moves : List String) (move : String) (index : Nat) : Row :=
  (rowLoop moves index (winCount moves) 1 []).set move Outcome.Draw

/-- The `forEach` over the remaining moves, `index` counting positions. -/
def rulesLoop (moves : List String) : List String → Nat → Rules → Rules
  | [], _, rules => rules
  | move :: rest, index, rules =>
    rulesLoop moves rest (index + 1) ((move, generateRow moves move index) :: rules)

/-- The method `generateRules` of a `RuleGenerator` holding `moves`. -/
def generateRules (moves : List String) : Rules := rulesLoop moves moves 0 []

/-- The double read `rules[a][b]`, `none` when it yields none of the three result
strings. -/
def lookup (rules : Rules) (a b : String) : Option Outcome :=
  (assoc rules a).bind (fun row => row.get b)

/-- How many labels `x` of `moves` have `rules[m][x]` equal to the result `v`. -/
def countOutcome (rules : Rules) (moves : List String) (m : String) (v : Outcome) : Nat :=
  moves.countP (fun x => decide (lookup rules m x = some v))

/-! ## Numbers read from strings -/

/-- White space and line terminators skipped by `parseInt` and by string-to-number
conversion. -/
def isStrWhiteSpaceChar (c : Char) : Bool :=
  let n := c.toNat
  n = 0x09 || n = 0x0A || n = 0x0B || n = 0x0C || n = 0x0D || n = 0x20 || n = 0xA0 ||
  n = 0x1680 || (0x2000 ≤ n && n ≤ 0x200A) || n = 0x2028 || n = 0x2029 || n = 0x202F ||
  n = 0x205F || n = 0x3000 || n = 0xFEFF

/-- Value of a digit or letter as a digit of a radix up to 36. -/
def digitValue (c : Char) : Option Nat :=
  let n := c.toNat
  if 48 ≤ n ∧ n ≤ 57 then some (n - 48)
  else if 97 ≤ n ∧ n ≤ 122 then some (n - 87)
  else if 65 ≤ n ∧ n ≤ 90 then some (n - 55)
  else none

/-- Whether `c` is a digit of the given radix. -/
def isRadixDigit (radix : Nat) (c : Char) : Bool :=
  match digitValue c with
  | some d => decide (d < radix)
  | none => false

/-- The integer written by a run of digits. -/
def digitsValue (radix : Nat) (ds : List Char) : Nat :=
  ds.foldl (fun acc c => acc * radix + (digitValue c).getD 0) 0

/-- An optional sign at the head of a text: whether it is `-`, and the rest. -/
def readSign (s : List Char) : Bool × List Char :=
  match s with
  | '-' :: t => (true, t)
  | '+' :: t => (false, t)
  | _ => (false, s)

/-- An optional `0x` or `0X` at the head of a text: the radix it selects, and the
rest. -/
def readHexMark (s : List Char) : Nat × List Char :=
  match s with
  | '0' :: 'x' :: t => (16, t)
  | '0' :: 'X' :: t => (16, t)
  | t => (10, t)

/-- The built-in `parseInt(input)` with no radix: leading white space is skipped, a sign
is read, `0x` selects radix 16, and the longest run of digits is the value; `none` is
`NaN`.  The value is kept as the exact integer: rounding it to a double is monotone and
leaves the integers up to `2 ^ 53` fixed, so the two comparisons made on it in `askMove`
(with `0` and with the length of an array) come out the same. -/
def parseInt (input : String) : Option Int :=
  let signed := readSign (input.toList.dropWhile isStrWhiteSpaceChar)
  let based := readHexMark signed.2
  let z := based.2.takeWhile (isRadixDigit based.1)
  if z = [] then none
  else some (if signed.1 then -(digitsValue based.1 z : Int) else (digitsValue based.1 z : Int))

/-- A double: `NaN`, an infinity, or a signed fraction `num / den` that a double holds
exactly. -/
inductive JSNumber
  | nan
  | infinity (negative : Bool)
  | finite (negative : Bool) (num den : Nat)
  deriving DecidableEq, Repr

/-- The integer nearest to `p / q`, ties to even. -/
def roundHalfEven (p q : Nat) : Nat :=
  let f := p / q
  let r := p % q
  if 2 * r < q then f else if q < 2 * r then f + 1 else if f % 2 = 0 then f else f + 1

/-- Binary logarithm rounded down, by repeated halving. -/
def log2Aux : Nat → Nat → Nat
  | 0, _ => 0
  | fuel + 1, n => if n < 2 then 0 else log2Aux fuel (n / 2) + 1

/-- Binary logarithm of a positive integer, rounded down. -/
def log2 (n : Nat) : Nat := log2Aux n n

/-- The exponent `e` with `2 ^ e ≤ p / q < 2 ^ (e + 1)`, for positive `p` and `q`. -/
def floorLog2 (p q : Nat) : Int :=
  let e : Int := (log2 p : Int) - (log2 q : Int)
  if 0 ≤ e then (if q * 2 ^ e.toNat ≤ p then e else e - 1)
  else (if q ≤ p * 2 ^ (-e).toNat then e else e - 1)

/-- The double nearest to `± p / q` (round to nearest, ties to even, 53 significant
bits, gradual underflow below `2 ^ (-1022)`, overflow to infinity). -/
def roundToDouble (negative : Bool) (p q : Nat) : JSNumber :=
  if p = 0 then JSNumber.finite negative 0 1
  else
    let e : Int := max (floorLog2 p q) (-1022)
    let s : Int := 52 - e
    if 0 ≤ s then JSNumber.finite negative (roundHalfEven (p * 2 ^ s.toNat) q) (2 ^ s.toNat)
    else
      let v := roundHalfEven p (q * 2 ^ (-s).toNat) * 2 ^ (-s).toNat
      if 2 ^ 1024 ≤ v then JSNumber.infinity negative else JSNumber.finite negative v 1

/-- The text with white space removed at both ends. -/
def trimWhiteSpace (s : List Char) : List Char :=
  ((s.dropWhile isStrWhiteSpaceChar).reverse.dropWhile isStrWhiteSpaceChar).reverse

/-- A literal `0x…`, `0o…` or `0b…` with at least one digit and nothing else. -/
def nonDecimalLiteral (s : List Char) : Option Nat :=
  let body (radix : Nat) (t : List Char) : Option Nat :=
    if t ≠ [] ∧ t.all (isRadixDigit radix) then some (digitsValue radix t) else none
  match s with
  | '0' :: 'x' :: t => body 16 t
  | '0' :: 'X' :: t => body 16 t
  | '0' :: 'o' :: t => body 8 t
  | '0' :: 'O' :: t => body 8 t
  | '0' :: 'b' :: t => body 2 t
  | '0' :: 'B' :: t => body 2 t
  | _ => none

/-- The exponent part of a decimal literal: nothing, or `e` or `E`, an optional sign and
at least one digit, up to the end of the text. -/
def exponentPart (s : List Char) : Option Int :=
  let digits (negative : Bool) (t : List Char) : Option Int :=
    if t ≠ [] ∧ t.all (isRadixDigit 10) then
      some (if negative then -(digitsValue 10 t : Int) else (digitsValue 10 t : Int))
    else none
  let signedDigits (t : List Char) : Option Int :=
    match t with
    | '-' :: u => digits true u
    | '+' :: u => digits false u
    | u => digits false u
  match s with
  | [] => some 0
  | 'e' :: t => signedDigits t
  | 'E' :: t => signedDigits t
  | _ => none

/-- An unsigned decimal literal: `Infinity`, or digits with an optional fraction and an
optional exponent, with a digit on at least one side of the point. -/
def unsignedDecimal (negative : Bool) (s : List Char) : JSNumber :=
  if s = "Infinity".toList then JSNumber.infinity negative
  else
    let intPart := s.takeWhile (isRadixDigit 10)
    let afterInt := s.dropWhile (isRadixDigit 10)
    let fraction : List Char × List Char :=
      match afterInt with
      | '.' :: t => (t.takeWhile (isRadixDigit 10), t.dropWhile (isRadixDigit 10))
      | t => ([], t)
    if intPart = [] ∧ fraction.1 = [] then JSNumber.nan
    else
      match exponentPart fraction.2 with
      | none => JSNumber.nan
      | some ex =>
        let mantissa := digitsValue 10 (intPart ++ fraction.1)
        let scale : Int := ex - (fraction.1.length : Int)
        if 0 ≤ scale then roundToDouble negative (mantissa * 10 ^ scale.toNat) 1
        else roundToDouble negative mantissa (10 ^ (-scale).toNat)

/-- The conversion of a string to a number, as the operator `-` applies it to a string
operand: white space is trimmed, the empty text is `0`, a numeric literal is rounded to
the nearest double, and anything else is `NaN`. -/
def stringToNumber (input : String) : JSNumber :=
  let s := trimWhiteSpace input.toList
  if s = [] then JSNumber.finite false 0 1
  else
    match nonDecimalLiteral s with
    | some n => roundToDouble false n 1
    | none => unsignedDecimal (readSign s).1 (readSign s).2

/-- An argument of `play`: the prompt loop passes the line typed by the user, a string;
a caller holding an index passes a number. -/
inductive JSValue
  | str (s : String)
  | num (x : JSNumber)
  deriving DecidableEq, Repr

/-- The numeric value the operator `-` takes of its left operand. -/
def JSValue.toNumber : JSValue → JSNumber
  | JSValue.str s => stringToNumber s
  | JSValue.num x => x

/-- The number holding the natural number `n` (exact below `2 ^ 53`). -/
def JSNumber.ofNat (n : Nat) : JSNumber := JSNumber.finite false n 1

/-- The double `x - 1`. -/
def JSNumber.sub1 : JSNumber → JSNumber
  | JSNumber.nan => JSNumber.nan
  | JSNumber.infinity negative => JSNumber.infinity negative
  | JSNumber.finite negative p q =>
    if negative then roundToDouble true (p + q) q
    else if q ≤ p then roundToDouble false (p - q) q
    else roundToDouble true (q - p) q

/-- The array read `xs[x]` for a number `x`: an element when `x` is an integer within
the array (either zero counts as index `0`), `undefined` otherwise. -/
def arrayGetNumber (xs : List String) : JSNumber → Option String
  | JSNumber.finite negative p q =>
    if q ≠ 0 ∧ p % q = 0 ∧ (negative = false ∨ p = 0) then xs[p / q]? else none
  | _ => none

/-! ## `CryptoHelper` -/

/-- A byte buffer; each entry is read modulo 256. -/
abbrev Bytes := List Nat

/-- One lower-case hexadecimal digit. -/
def hexDigit (n : Nat) : Char := "0123456789abcdef".toList.getD (n % 16) '0'

/-- The encoding `buffer.toString('hex')` and `digest('hex')`: two lower-case digits per
byte. -/
def hexString (bytes : Bytes) : String :=
  String.mk (bytes.flatMap (fun b => [hexDigit (b % 256 / 16), hexDigit (b % 256)]))

/-- The method `toUpperCase`, applied by the program to hexadecimal text only. -/
def toUpperCase (s : String) : String := String.mk (s.toList.map Char.toUpper)

/-- The static method `generateHMAC(key, message)`.  HMAC-SHA256 itself belongs to the
platform and is the parameter `hmacSha256`, from key and message to the digest bytes. -/
def generateHMAC (hmacSha256 : Bytes → String → Bytes) (key : Bytes) (message : String) :
    String :=
  toUpperCase (hexString (hmacSha256 key message))

/-! ## `TableHelper` -/

/-- The colours asked of `chalk`. -/
inductive Colour
  | green
  | yellow
  | blue
  | red
  | white
  deriving DecidableEq, Repr

/-- The two display libraries loaded by `loadDependencies`: the colouring of `chalk` and
the rendering of a `cli-table3` table from its head and rows. -/
structure Display where
  chalk : Colour → String → String
  tableToString : List String → List (List String) → String

/-- The static method `generateTable(moves, rules)`: the head and the rows handed to the
table library.  A cell whose value is neither `'Win'` nor `'Lose'` is shown as `Draw`.
The method is called with the table of the same moves, in which every row exists. -/
def generateTable (d : Display) (moves : List String) (rules : Rules) : String :=
  let head := "v PC\\User >" :: moves.map (d.chalk Colour.green)
  let rows := moves.map (fun move =>
    d.chalk Colour.yellow move :: moves.map (fun against =>
      match lookup rules move against with
      | some Outcome.Win => d.chalk Colour.blue "Win"
      | some Outcome.Lose => d.chalk Colour.red "Lose"
      | _ => d.chalk Colour.white "Draw"))
  d.tableToString head rows

/-! ## `Game` -/

/-- The fields of a `Game` object. -/
structure Game where
  moves : List String
  rules : Rules
  key : Bytes
  computerMove : String
  hmac : String
  deriving DecidableEq, Repr

/-- The constructor of `Game`.  `key` is the buffer returned by `generateKey()` and
`rnd` the integer `Math.floor(Math.random() * moves.length)`, which lies in
`0 .. moves.length - 1` for a non-empty list.  When `moves[rnd]` is `undefined` the
call `update(undefined)` inside `generateHMAC` throws and no object is made (`none`). -/
def Game.constructor (hmacSha256 : Bytes → String → Bytes) (moves : List String) (key : Bytes)
    (rnd : Nat) : Option Game :=
  match moves[rnd]? with
  | none => none
  | some computerMove =>
    some
      ⟨moves, generateRules moves, key, computerMove, generateHMAC hmacSha256 key computerMove⟩

/-- The method `displayHMAC`: the object afterwards and the line logged. -/
def Game.displayHMAC (g : Game) : Game × List String :=
  (g, ["HMAC: " ++ g.hmac])

/-- The lines of the menu for the moves from position `index` on. -/
def menuLines : List String → Nat → List String
  | [], _ => []
  | move :: rest, index => (toString (index + 1) ++ " - " ++ move) :: menuLines rest (index + 1)

/-- The method `displayMenu`: the object afterwards and the lines logged. -/
def Game.displayMenu (g : Game) : Game × List String :=
  (g, ["Available moves:"] ++ menuLines g.moves 0 ++ ["0 - exit", "? - help"])

/-- The method `displayHelp`: the object afterwards and the lines logged. -/
def Game.displayHelp (d : Display) (g : Game) : Game × List String :=
  (g, ["Help - Results from the user's point of view:",
       "Win: Your move beats the computer's move.",
       "Lose: Your move is beaten by the computer's move.",
       "Draw: Both you and the computer have made the same move.\n",
       generateTable d g.moves g.rules])

/-- The phrase logged by `play` for the value read from the table:
`result === 'Win' ? 'You win!' : result === 'Lose' ? 'You lose!' : 'Draw!'`. -/
def resultMessage : Option Outcome → String
  | some Outcome.Win => "You win!"
  | some Outcome.Lose => "You lose!"
  | _ => "Draw!"

/-- The method `play(userMove)`: the object afterwards and the four lines logged.
`userMove - 1` converts its operand to a number.  The result is `none` when
`rules[computerMove]` was never assigned, which does not happen for an object made by
the constructor. -/
def Game.play (g : Game) (userMove : JSValue) : Option (Game × List String) :=
  let chosen := arrayGetNumber g.moves userMove.toNumber.sub1
  match assoc g.rules g.computerMove with
  | none => none
  | some row =>
    let result := row.get (jsString chosen)
    some (g, ["Your move: " ++ jsString chosen,
              "Computer move: " ++ g.computerMove,
              resultMessage result,
              "HMAC key: " ++ toUpperCase (hexString g.key)])

/-! ## `main` -/

/-- The collection `new Set(args)`: the distinct strings in order of first appearance. -/
def newSet (args : List String) : List String :=
  args.foldl (fun s x => if x ∈ s then s else s ++ [x]) []

/-- How a run of the program ends. -/
inductive Ending
  | exited (code : Nat)
  | closed
  | threw
  | waiting
  deriving DecidableEq, Repr

/-- What is observed of a run: the game object if one was constructed, the text written
to standard output and to standard error, whether `play` was entered and with which
argument, and how the run ended. -/
structure Run where
  game : Option Game
  stdout : List String
  stderr : List String
  played : Option String
  ending : Ending
  deriving DecidableEq, Repr

/-- The message of the validation in `main`. -/
def usageError : String :=
  "Error: Incorrect number of moves or duplicate moves found. Please provide an odd number of unique moves, e.g. \"node game.js rock paper scissors\"."

/-- The closure `askMove` of `main`, fed the remaining lines of standard input; `out` is
what has been written so far.  With no line left the prompt stays pending. -/
def askMove (d : Display) (args : List String) (game : Game) :
    List String → List String → Run
  | [], out => ⟨some game, out ++ ["Enter your move: "], [], none, Ending.waiting⟩
  | input :: rest, out =>
    let out := out ++ ["Enter your move: "]
    if input = "0" then ⟨some game, out, [], none, Ending.exited 0⟩
    else if input = "?" then askMove d args game rest (out ++ (game.displayHelp d).2)
    else if
      (match parseInt input with
        | some n => decide (0 < n ∧ n ≤ (args.length : Int))
        | none => false) = true
    then
      match game.play (JSValue.str input) with
      | some (g, lines) => ⟨some g, out ++ lines, [], some input, Ending.closed⟩
      | none => ⟨some game, out, [], some input, Ending.threw⟩
    else askMove d args game rest (out ++ ["Invalid input. Please try again."])

/-- The function `main` on the command-line arguments `args`, with the random key, the
random index and the lines typed by the user. -/
def main (d : Display) (hmacSha256 : Bytes → String → Bytes) (args : List String)
    (key : Bytes) (rnd : Nat) (lines : List String) : Run :=
  if args.length < 3 ∨ args.length % 2 = 0 ∨ (newSet args).length ≠ args.length then
    ⟨none, [], [usageError], none, Ending.exited 1⟩
  else
    match Game.constructor hmacSha256 args key rnd with
    | none => ⟨none, [], [], none, Ending.threw⟩
    | some game =>
      askMove d args game lines ((game.displayHMAC).2 ++ (game.displayMenu).2)

/-! ## Concrete inputs used below -/

/-- The three classic moves. -/
def rps3 : List String := ["rock", "paper", "scissors"]

/-- The five-move game. -/
def rps5 : List String := ["rock", "paper", "scissors", "lizard", "spock"]

/-- Three distinct labels, one of them `__proto__`. -/
def protoMoves : List String := ["__proto__", "a", "b"]

/-- A stand-in digest function for concrete runs. -/
def sampleHmac : Bytes → String → Bytes := fun key _ => key

/-- A stand-in display for concrete runs. -/
def sampleDisplay : Display := ⟨fun _ s => s, fun _ _ => ""⟩

/-- The game over `rps3` in which the computer holds `paper`. -/
def paperGame : Game :=
  ⟨rps3, generateRules rps3, [171, 205], "paper", generateHMAC sampleHmac [171, 205] "paper"⟩

/-! # Properties -/

/-! ## Dictionaries -/

/-- Reading an ordinary key after one assignment. -/
theorem Row.get_set_of_ne_proto (row : Row) (k key : String) (v : Outcome)
    (hkey : key ≠ protoKey) :
    (row.set k v).get key = if k = key then some v else row.get key := by
  unfold Row.set Row.get
  by_cases hk : k = protoKey
  · have hne : k ≠ key := fun h => hkey (h ▸ hk)
    simp [hk, hkey, hne, Ne.symm hkey]
  · simp [hk, hkey, assoc]

/-- Reading the key `__proto__` never yields a result string. -/
theorem Row.get_proto (row : Row) : row.get protoKey = none := by
  simp [Row.get]

/-- One turn of the loop, in terms of the two keys it writes. -/
theorem rowLoop_succ (moves : List String) (index n i : Nat) (row : Row) :
    rowLoop moves index (n + 1) i row =
      rowLoop moves index n (i + 1)
        ((row.set (winKey moves index i) Outcome.Win).set (loseKey moves index i) Outcome.Lose) :=
  rfl

/-- After the loop an ordinary key holds `v` when every write to it in the remaining
turns writes `v`, and either it held `v` before or some turn writes it. -/
theorem rowLoop_get_of_written (moves : List String) (index : Nat) (key : String) (v : Outcome)
    (hkey : key ≠ protoKey) :
    ∀ (n i : Nat) (row : Row),
      (∀ k, i ≤ k → k < i + n →
        (winKey moves index k = key → v = Outcome.Win) ∧
        (loseKey moves index k = key → v = Outcome.Lose)) →
      (row.get key = some v ∨
        ∃ k, i ≤ k ∧ k < i + n ∧ (winKey moves index k = key ∨ loseKey moves index k = key)) →
      (rowLoop moves index n i row).get key = some v := by
  intro n
  induction n with
  | zero =>
    intro i row _ h
    rcases h with h | ⟨k, h1, h2, _⟩
    · exact h
    · omega
  | succ n ih =>
    intro i row hcons h
    rw [rowLoop_succ]
    apply ih
    · intro k h1 h2
      exact hcons k (by omega) (by omega)
    · have hi := hcons i (le_refl i) (by omega)
      rw [Row.get_set_of_ne_proto _ _ _ _ hkey, Row.get_set_of_ne_proto _ _ _ _ hkey]
      by_cases hl : loseKey moves index i = key
      · left; simp [hl, hi.2 hl]
      · by_cases hw : winKey moves index i = key
        · left; simp [hl, hw, hi.1 hw]
        · simp only [hl, hw, if_false]
          rcases h with h | ⟨k, h1, h2, h3⟩
          · exact Or.inl h
          · right
            refine ⟨k, ?_, by omega, h3⟩
            rcases Nat.eq_or_lt_of_le h1 with h4 | h4
            · subst h4; rcases h3 with h3 | h3
              · exact absurd h3 hw
              · exact absurd h3 hl
            · omega


/-! ## Arithmetic on positions of the cycle -/

/-- The remainder of a number below twice the modulus. -/
theorem mod_cases (x n : Nat) (h : x < 2 * n) :
    x % n = if x < n then x else x - n := by
  split
  · next h1 => exact Nat.mod_eq_of_lt h1
  · next h1 =>
    rw [Nat.mod_eq_sub_mod (by omega)]
    exact Nat.mod_eq_of_lt (by omega)

/-- A label of a duplicate-free list stands at one position only. -/
theorem index_unique {moves : List String} (hnd : moves.Nodup) {x y : Nat} {a : String}
    (hx : moves[x]? = some a) (hy : moves[y]? = some a) : x = y := by
  have hx1 := (List.getElem?_eq_some.1 hx).1
  exact List.getElem?_inj hx1 hnd (hx.trans hy.symm)

/-- The winning key at counter `i` is the label `i` places ahead. -/
theorem winKey_eq {moves : List String} {index i : Nat} {b : String}
    (h : moves[(index + i) % moves.length]? = some b) : winKey moves index i = b := by
  unfold winKey arrayGet jsString
  have h1 : Int.tmod ((index : Int) + (i : Int)) (moves.length : Int) =
      (((index + i) % moves.length : Nat) : Int) := by
    rw [Int.ofNat_tmod]; push_cast; rfl
  rw [h1, if_neg (by omega), Int.toNat_ofNat, h]
  rfl

/-- The losing key at counter `i` is the label `i` places behind. -/
theorem loseKey_eq {moves : List String} {index i : Nat} {b : String}
    (hi : i ≤ index + moves.length)
    (h : moves[(index + moves.length - i) % moves.length]? = some b) :
    loseKey moves index i = b := by
  unfold loseKey arrayGet jsString
  have h1 : Int.tmod ((index : Int) - (i : Int) + (moves.length : Int)) (moves.length : Int) =
      (((index + moves.length - i) % moves.length : Nat) : Int) := by
    rw [Int.ofNat_tmod]; push_cast [hi]; congr 1; omega
  rw [h1, if_neg (by omega), Int.toNat_ofNat, h]
  rfl


/-! ## The row of one move -/

/-- No row yields a result string at the key `__proto__`. -/
theorem generateRow_get_proto (moves : List String) (a : String) (i : Nat) :
    (generateRow moves a i).get protoKey = none :=
  Row.get_proto _

/-- The diagonal write is `'Draw'` for every ordinary label. -/
theorem generateRow_get_self (moves : List String) (a : String) (i : Nat)
    (ha : a ≠ protoKey) : (generateRow moves a i).get a = some Outcome.Draw := by
  unfold generateRow
  rw [Row.get_set_of_ne_proto _ _ _ _ ha]
  simp

/-- The row of position `i` holds `'Win'` at the ordinary label `k` places ahead. -/
theorem generateRow_get_win {moves : List String} (hnd : moves.Nodup)
    (hodd : moves.length % 2 = 1) {i j k : Nat} {a b : String}
    (hi : moves[i]? = some a) (hj : moves[j]? = some b)
    (hk1 : 1 ≤ k) (hk2 : k ≤ winCount moves) (hjk : j = (i + k) % moves.length)
    (hb : b ≠ protoKey) : (generateRow moves a i).get b = some Outcome.Win := by
  have hil := (List.getElem?_eq_some.1 hi).1
  have hjl := (List.getElem?_eq_some.1 hj).1
  have hw : winCount moves = (moves.length - 1) / 2 := rfl
  have hab : a ≠ b := by
    intro h
    have := index_unique hnd hi (h ▸ hj)
    rw [mod_cases _ _ (by omega)] at hjk
    split at hjk <;> omega
  unfold generateRow
  rw [Row.get_set_of_ne_proto _ _ _ _ hb, if_neg hab]
  apply rowLoop_get_of_written _ _ _ _ hb
  · intro c hc1 hc2
    refine ⟨fun _ => rfl, fun h => ?_⟩
    exfalso
    have hsome : moves[(i + moves.length - c) % moves.length]? =
        some (moves[(i + moves.length - c) % moves.length]?.getD "undefined") := by
      have : (i + moves.length - c) % moves.length < moves.length := Nat.mod_lt _ (by omega)
      simp [List.getElem?_eq_getElem this]
    have h1 := loseKey_eq (by omega) hsome
    rw [h1] at h
    rw [h] at hsome
    have h2 := index_unique hnd hsome hj
    rw [mod_cases _ _ (by omega)] at hjk h2
    split at hjk <;> split at h2 <;> omega
  · right
    refine ⟨k, hk1, by omega, Or.inl (winKey_eq ?_)⟩
    rw [← hjk]; exact hj

/-- The row of position `i` holds `'Lose'` at the ordinary label `k` places behind. -/
theorem generateRow_get_lose {moves : List String} (hnd : moves.Nodup)
    (hodd : moves.length % 2 = 1) {i j k : Nat} {a b : String}
    (hi : moves[i]? = some a) (hj : moves[j]? = some b)
    (hk1 : 1 ≤ k) (hk2 : k ≤ winCount moves)
    (hjk : j = (i + moves.length - k) % moves.length)
    (hb : b ≠ protoKey) : (generateRow moves a i).get b = some Outcome.Lose := by
  have hil := (List.getElem?_eq_some.1 hi).1
  have hjl := (List.getElem?_eq_some.1 hj).1
  have hw : winCount moves = (moves.length - 1) / 2 := rfl
  have hab : a ≠ b := by
    intro h
    have := index_unique hnd hi (h ▸ hj)
    rw [mod_cases _ _ (by omega)] at hjk
    split at hjk <;> omega
  unfold generateRow
  rw [Row.get_set_of_ne_proto _ _ _ _ hb, if_neg hab]
  apply rowLoop_get_of_written _ _ _ _ hb
  · intro c hc1 hc2
    refine ⟨fun h => ?_, fun _ => rfl⟩
    exfalso
    have hsome : moves[(i + c) % moves.length]? =
        some (moves[(i + c) % moves.length]?.getD "undefined") := by
      have : (i + c) % moves.length < moves.length := Nat.mod_lt _ (by omega)
      simp [List.getElem?_eq_getElem this]
    have h1 := winKey_eq hsome
    rw [h1] at h
    rw [h] at hsome
    have h2 := index_unique hnd hsome hj
    rw [mod_cases _ _ (by omega)] at hjk h2
    split at hjk <;> split at h2 <;> omega
  · right
    refine ⟨k, hk1, by omega, Or.inr (loseKey_eq (by omega) ?_)⟩
    rw [← hjk]; exact hj

/-! ## The table -/

/-- The `forEach` leaves the rows of labels it does not visit untouched. -/
theorem assoc_rulesLoop_of_not_mem (moves : List String) (key : String) :
    ∀ (rest : List String) (index : Nat) (rules : Rules), key ∉ rest →
      assoc (rulesLoop moves rest index rules) key = assoc rules key := by
  intro rest
  induction rest with
  | nil => intro index rules _; rfl
  | cons m t ih =>
    intro index rules h
    have h1 : m ≠ key := fun e => h (e ▸ List.mem_cons_self _ _)
    have h2 : key ∉ t := fun e => h (List.mem_cons_of_mem _ e)
    show assoc (rulesLoop moves t (index + 1) ((m, generateRow moves m index) :: rules)) key = _
    rw [ih _ _ h2]
    simp [assoc, h1]

/-- Over distinct labels the `forEach` binds each label to the row of its position. -/
theorem assoc_rulesLoop_of_nodup (moves : List String) :
    ∀ (rest : List String) (index : Nat) (rules : Rules) (j : Nat) (a : String),
      rest.Nodup → rest[j]? = some a →
      assoc (rulesLoop moves rest index rules) a = some (generateRow moves a (index + j)) := by
  intro rest
  induction rest with
  | nil => intro index rules j a _ h; simp at h
  | cons m t ih =>
    intro index rules j a hnd h
    have hnd1 := List.nodup_cons.1 hnd
    show assoc (rulesLoop moves t (index + 1) ((m, generateRow moves m index) :: rules)) a = _
    cases j with
    | zero =>
      simp at h
      subst h
      rw [assoc_rulesLoop_of_not_mem _ _ _ _ _ hnd1.1]
      simp [assoc]
    | succ j =>
      simp at h
      rw [ih _ _ j a hnd1.2 h]
      congr 2; omega

/-- Every label visited by the `forEach` ends up bound to a row. -/
theorem assoc_rulesLoop_of_mem (moves : List String) (a : String) :
    ∀ (rest : List String) (index : Nat) (rules : Rules), a ∈ rest →
      ∃ i, assoc (rulesLoop moves rest index rules) a = some (generateRow moves a i) := by
  intro rest
  induction rest with
  | nil => intro index rules h; simp at h
  | cons m t ih =>
    intro index rules h
    show ∃ i, assoc (rulesLoop moves t (index + 1) ((m, generateRow moves m index) :: rules)) a = _
    by_cases hat : a ∈ t
    · exact ih _ _ hat
    · have : a = m := by
        rcases List.mem_cons.1 h with h | h
        · exact h
        · exact absurd h hat
      subst this
      refine ⟨index, ?_⟩
      rw [assoc_rulesLoop_of_not_mem _ _ _ _ _ hat]
      simp [assoc]

/-- Over distinct labels the table binds each label to the row of its position. -/
theorem assoc_generateRules {moves : List String} (hnd : moves.Nodup) {i : Nat} {a : String}
    (hi : moves[i]? = some a) :
    assoc (generateRules moves) a = some (generateRow moves a i) := by
  unfold generateRules
  rw [assoc_rulesLoop_of_nodup moves moves 0 [] i a hnd hi]
  simp

/-- No table yields a result string in the column `__proto__`. -/
theorem lookup_proto (rules : Rules) (a : String) : lookup rules a protoKey = none := by
  unfold lookup
  cases assoc rules a <;> simp [Row.get_proto]

/-- The diagonal of the table at an ordinary label. -/
theorem lookup_self {moves : List String} (hnd : moves.Nodup) {a : String} (ha : a ∈ moves)
    (hp : a ≠ protoKey) : lookup (generateRules moves) a a = some Outcome.Draw := by
  obtain ⟨i, hi⟩ := List.getElem?_of_mem ha
  unfold lookup
  rw [assoc_generateRules hnd hi]
  exact generateRow_get_self _ _ _ hp

/-- The entry of the table `k` places ahead. -/
theorem lookup_win {moves : List String} (hnd : moves.Nodup)
    (hodd : moves.length % 2 = 1) {i j k : Nat} {a b : String}
    (hi : moves[i]? = some a) (hj : moves[j]? = some b)
    (hk1 : 1 ≤ k) (hk2 : k ≤ winCount moves) (hjk : j = (i + k) % moves.length)
    (hb : b ≠ protoKey) : lookup (generateRules moves) a b = some Outcome.Win := by
  unfold lookup
  rw [assoc_generateRules hnd hi]
  exact generateRow_get_win hnd hodd hi hj hk1 hk2 hjk hb

/-- The entry of the table `k` places behind. -/
theorem lookup_lose {moves : List String} (hnd : moves.Nodup)
    (hodd : moves.length % 2 = 1) {i j k : Nat} {a b : String}
    (hi : moves[i]? = some a) (hj : moves[j]? = some b)
    (hk1 : 1 ≤ k) (hk2 : k ≤ winCount moves)
    (hjk : j = (i + moves.length - k) % moves.length)
    (hb : b ≠ protoKey) : lookup (generateRules moves) a b = some Outcome.Lose := by
  unfold lookup
  rw [assoc_generateRules hnd hi]
  exact generateRow_get_lose hnd hodd hi hj hk1 hk2 hjk hb

/-- Any two positions of an odd cycle are equal or one lies within `winCount` steps
ahead of the other or within `winCount` steps behind it. -/
theorem position_trichotomy {n : Nat} (hodd : n % 2 = 1) {i j : Nat} (hi : i < n)
    (hj : j < n) :
    j = i ∨ (∃ k, 1 ≤ k ∧ k ≤ (n - 1) / 2 ∧ j = (i + k) % n) ∨
      (∃ k, 1 ≤ k ∧ k ≤ (n - 1) / 2 ∧ j = (i + n - k) % n) := by
  rcases Nat.lt_trichotomy j i with h | h | h
  · by_cases hd : i - j ≤ (n - 1) / 2
    · right; right
      refine ⟨i - j, by omega, hd, ?_⟩
      rw [mod_cases _ _ (by omega)]
      split <;> omega
    · right; left
      refine ⟨n - (i - j), by omega, by omega, ?_⟩
      rw [mod_cases _ _ (by omega)]
      split <;> omega
  · exact Or.inl h
  · by_cases hd : j - i ≤ (n - 1) / 2
    · right; left
      refine ⟨j - i, by omega, hd, ?_⟩
      rw [mod_cases _ _ (by omega)]
      split <;> omega
    · right; right
      refine ⟨n - (j - i), by omega, by omega, ?_⟩
      rw [mod_cases _ _ (by omega)]
      split <;> omega

/-- The entries `'Win'` of a row are exactly those `1` to `winCount` places ahead. -/
theorem lookup_eq_win_iff {moves : List String} (hnd : moves.Nodup)
    (hodd : moves.length % 2 = 1) {i j : Nat} {a b : String}
    (hi : moves[i]? = some a) (hj : moves[j]? = some b) (hb : b ≠ protoKey) :
    lookup (generateRules moves) a b = some Outcome.Win ↔
      ∃ k, 1 ≤ k ∧ k ≤ winCount moves ∧ j = (i + k) % moves.length := by
  constructor
  · intro h
    have hil := (List.getElem?_eq_some.1 hi).1
    have hjl := (List.getElem?_eq_some.1 hj).1
    rcases position_trichotomy hodd hil hjl with h1 | h1 | ⟨k, h1, h2, h3⟩
    · subst h1
      have hab : a = b := Option.some.inj (hi.symm.trans hj)
      subst hab
      rw [lookup_self hnd (List.getElem?_mem hi) hb] at h
      cases h
    · exact h1
    · rw [lookup_lose hnd hodd hi hj h1 h2 h3 hb] at h
      cases h
  · rintro ⟨k, h1, h2, h3⟩
    exact lookup_win hnd hodd hi hj h1 h2 h3 hb

/-- The entries `'Lose'` of a row are exactly those `1` to `winCount` places behind. -/
theorem lookup_eq_lose_iff {moves : List String} (hnd : moves.Nodup)
    (hodd : moves.length % 2 = 1) {i j : Nat} {a b : String}
    (hi : moves[i]? = some a) (hj : moves[j]? = some b) (hb : b ≠ protoKey) :
    lookup (generateRules moves) a b = some Outcome.Lose ↔
      ∃ k, 1 ≤ k ∧ k ≤ winCount moves ∧ j = (i + moves.length - k) % moves.length := by
  constructor
  · intro h
    have hil := (List.getElem?_eq_some.1 hi).1
    have hjl := (List.getElem?_eq_some.1 hj).1
    rcases position_trichotomy hodd hil hjl with h1 | ⟨k, h1, h2, h3⟩ | h1
    · subst h1
      have hab : a = b := Option.some.inj (hi.symm.trans hj)
      subst hab
      rw [lookup_self hnd (List.getElem?_mem hi) hb] at h
      cases h
    · rw [lookup_win hnd hodd hi hj h1 h2 h3 hb] at h
      cases h
    · exact h1
  · rintro ⟨k, h1, h2, h3⟩
    exact lookup_lose hnd hodd hi hj h1 h2 h3 hb

/-- The number of labels of a duplicate-free list that satisfy a test, when those labels
are the images of `1 .. w` under a map that is injective there. -/
theorem countP_eq_of_image {moves : List String} (hnd : moves.Nodup) (p : String → Bool)
    (f : Nat → String) (w : Nat)
    (hinj : ∀ x ∈ List.range' 1 w, ∀ y ∈ List.range' 1 w, f x = f y → x = y)
    (hmem : ∀ x, (x ∈ moves ∧ p x = true) ↔ ∃ k, 1 ≤ k ∧ k ≤ w ∧ f k = x) :
    moves.countP p = w := by
  rw [List.countP_eq_length_filter]
  have hperm : List.Perm (moves.filter p) ((List.range' 1 w).map f) := by
    rw [List.perm_ext_iff_of_nodup (hnd.filter _)
      (List.Nodup.map_on hinj (List.nodup_range' 1 w))]
    intro x
    rw [List.mem_filter, hmem x, List.mem_map]
    constructor
    · rintro ⟨k, h1, h2, h3⟩
      exact ⟨k, List.mem_range'_1.2 ⟨h1, by omega⟩, h3⟩
    · rintro ⟨k, h1, h3⟩
      have := List.mem_range'_1.1 h1
      exact ⟨k, this.1, by omega, h3⟩
  rw [hperm.length_eq]
  simp


/-! ## General statements about the table, for labels other than `__proto__` -/

/-- X1: every row of the table over an odd duplicate-free list
without the label `__proto__` holds exactly `(N - 1) / 2` entries `'Win'` and exactly
`(N - 1) / 2` entries `'Lose'`. -/
theorem generateRules_counts (moves : List String) (m : String)
    (hodd : moves.length % 2 = 1) (hnd : moves.Nodup) (hp : protoKey ∉ moves)
    (hm : m ∈ moves) :
    countOutcome (generateRules moves) moves m Outcome.Win = (moves.length - 1) / 2 ∧
    countOutcome (generateRules moves) moves m Outcome.Lose = (moves.length - 1) / 2 := by
  obtain ⟨i, hi⟩ := List.getElem?_of_mem hm
  have hil := (List.getElem?_eq_some.1 hi).1
  have hw : winCount moves = (moves.length - 1) / 2 := rfl
  have hne : ∀ x, x ∈ moves → x ≠ protoKey := fun x hx e => hp (e ▸ hx)
  have hvalid : ∀ t, moves[t % moves.length]? =
      some (moves[t % moves.length]?.getD "") := by
    intro t
    have : t % moves.length < moves.length := Nat.mod_lt _ (by omega)
    simp [List.getElem?_eq_getElem this]
  constructor
  · unfold countOutcome
    apply countP_eq_of_image hnd _ (fun k => moves[(i + k) % moves.length]?.getD "")
    · intro x hx y hy hxy
      have hx1 := List.mem_range'_1.1 hx
      have hy1 := List.mem_range'_1.1 hy
      have h1 := hvalid (i + x)
      have h2 := hvalid (i + y)
      rw [hxy] at h1
      have h3 := index_unique hnd h1 h2
      rw [mod_cases _ _ (by omega), mod_cases _ _ (by omega)] at h3
      split at h3 <;> split at h3 <;> omega
    · intro x
      constructor
      · rintro ⟨hx, hpx⟩
        obtain ⟨j, hj⟩ := List.getElem?_of_mem hx
        have hl := of_decide_eq_true hpx
        obtain ⟨k, h1, h2, h3⟩ := (lookup_eq_win_iff hnd hodd hi hj (hne x hx)).1 hl
        refine ⟨k, h1, by omega, ?_⟩
        simp only [← h3, hj, Option.getD_some]
      · rintro ⟨k, h1, h2, h3⟩
        have h4 := hvalid (i + k)
        rw [h3] at h4
        have hx := List.getElem?_mem h4
        refine ⟨hx, decide_eq_true ?_⟩
        exact lookup_win hnd hodd hi h4 h1 (by omega) rfl (hne x hx)
  · unfold countOutcome
    apply countP_eq_of_image hnd _
      (fun k => moves[(i + moves.length - k) % moves.length]?.getD "")
    · intro x hx y hy hxy
      have hx1 := List.mem_range'_1.1 hx
      have hy1 := List.mem_range'_1.1 hy
      have h1 := hvalid (i + moves.length - x)
      have h2 := hvalid (i + moves.length - y)
      rw [hxy] at h1
      have h3 := index_unique hnd h1 h2
      rw [mod_cases _ _ (by omega), mod_cases _ _ (by omega)] at h3
      split at h3 <;> split at h3 <;> omega
    · intro x
      constructor
      · rintro ⟨hx, hpx⟩
        obtain ⟨j, hj⟩ := List.getElem?_of_mem hx
        have hl := of_decide_eq_true hpx
        obtain ⟨k, h1, h2, h3⟩ := (lookup_eq_lose_iff hnd hodd hi hj (hne x hx)).1 hl
        refine ⟨k, h1, by omega, ?_⟩
        simp only [← h3, hj, Option.getD_some]
      · rintro ⟨k, h1, h2, h3⟩
        have h4 := hvalid (i + moves.length - k)
        rw [h3] at h4
        have hx := List.getElem?_mem h4
        refine ⟨hx, decide_eq_true ?_⟩
        exact lookup_lose hnd hodd hi h4 h1 (by omega) rfl (hne x hx)

/-- Two distinct ordinary labels hold opposite entries against each other. -/
theorem lookup_opposite (moves : List String) (a b : String)
    (hodd : moves.length % 2 = 1) (hnd : moves.Nodup) (hp : protoKey ∉ moves)
    (ha : a ∈ moves) (hb : b ∈ moves) (hab : a ≠ b) :
    (lookup (generateRules moves) a b = some Outcome.Win ∧
      lookup (generateRules moves) b a = some Outcome.Lose) ∨
    (lookup (generateRules moves) a b = some Outcome.Lose ∧
      lookup (generateRules moves) b a = some Outcome.Win) := by
  obtain ⟨i, hi⟩ := List.getElem?_of_mem ha
  obtain ⟨j, hj⟩ := List.getElem?_of_mem hb
  have hil := (List.getElem?_eq_some.1 hi).1
  have hjl := (List.getElem?_eq_some.1 hj).1
  have hw : winCount moves = (moves.length - 1) / 2 := rfl
  have hne : ∀ x, x ∈ moves → x ≠ protoKey := fun x hx e => hp (e ▸ hx)
  rcases position_trichotomy hodd hil hjl with h1 | ⟨k, h1, h2, h3⟩ | ⟨k, h1, h2, h3⟩
  · subst h1
    exact absurd (Option.some.inj (hi.symm.trans hj)) hab
  · left
    refine ⟨lookup_win hnd hodd hi hj h1 h2 h3 (hne b hb),
      lookup_lose hnd hodd hj hi h1 h2 ?_ (hne a ha)⟩
    rw [mod_cases _ _ (by omega)] at h3
    rw [mod_cases _ _ (by omega)]
    split at h3 <;> split <;> omega
  · right
    refine ⟨lookup_lose hnd hodd hi hj h1 h2 h3 (hne b hb),
      lookup_win hnd hodd hj hi h1 h2 ?_ (hne a ha)⟩
    rw [mod_cases _ _ (by omega)] at h3
    rw [mod_cases _ _ (by omega)]
    split at h3 <;> split <;> omega

/-- X2: in the table over an odd duplicate-free list without the
label `__proto__`, two distinct moves always hold opposite results against each other,
one `'Win'` and the other `'Lose'`. -/
theorem generateRules_opposite (moves : List String) (a b : String)
    (hodd : moves.length % 2 = 1) (hnd : moves.Nodup) (hp : protoKey ∉ moves)
    (ha : a ∈ moves) (hb : b ∈ moves) (hab : a ≠ b) :
    (lookup (generateRules moves) a b = some Outcome.Win ∧
      lookup (generateRules moves) b a = some Outcome.Lose) ∨
    (lookup (generateRules moves) a b = some Outcome.Lose ∧
      lookup (generateRules moves) b a = some Outcome.Win) :=
  lookup_opposite moves a b hodd hnd hp ha hb hab

/-- X3: in the table over an odd duplicate-free list without
the label `__proto__`, the entry for two moves is `'Draw'` exactly on the diagonal. -/
theorem generateRules_draw_iff (moves : List String) (a b : String)
    (hodd : moves.length % 2 = 1) (hnd : moves.Nodup) (hp : protoKey ∉ moves)
    (ha : a ∈ moves) (hb : b ∈ moves) :
    lookup (generateRules moves) a b = some Outcome.Draw ↔ a = b := by
  have hne : ∀ x, x ∈ moves → x ≠ protoKey := fun x hx e => hp (e ▸ hx)
  constructor
  · intro h
    by_contra hab
    rcases lookup_opposite moves a b hodd hnd hp ha hb hab with h1 | h1
    · rw [h1.1] at h; cases h
    · rw [h1.1] at h; cases h
  · intro h
    subst h
    exact lookup_self hnd ha (hne a ha)

/-- X4: in the table over an odd duplicate-free list without
the label `__proto__`, the move at position `i` has `'Win'` against the move `k` places
ahead and `'Lose'` against the move `k` places behind, for every `k` from `1` to
`(N - 1) / 2`. -/
theorem generateRules_offsets (moves : List String) (i k : Nat)
    (hodd : moves.length % 2 = 1) (hnd : moves.Nodup) (hp : protoKey ∉ moves)
    (hi : i < moves.length) (hk1 : 1 ≤ k) (hk2 : k ≤ (moves.length - 1) / 2) :
    ∃ a b c, moves[i]? = some a ∧ moves[(i + k) % moves.length]? = some b ∧
      moves[(i + moves.length - k) % moves.length]? = some c ∧
      lookup (generateRules moves) a b = some Outcome.Win ∧
      lookup (generateRules moves) a c = some Outcome.Lose := by
  have hne : ∀ x, x ∈ moves → x ≠ protoKey := fun x hx e => hp (e ▸ hx)
  have h1 : (i + k) % moves.length < moves.length := Nat.mod_lt _ (by omega)
  have h2 : (i + moves.length - k) % moves.length < moves.length := Nat.mod_lt _ (by omega)
  refine ⟨moves[i], moves[(i + k) % moves.length],
    moves[(i + moves.length - k) % moves.length],
    List.getElem?_eq_getElem hi, List.getElem?_eq_getElem h1, List.getElem?_eq_getElem h2,
    ?_, ?_⟩
  · exact lookup_win hnd hodd (List.getElem?_eq_getElem hi) (List.getElem?_eq_getElem h1)
      hk1 hk2 rfl (hne _ (List.getElem_mem _))
  · exact lookup_lose hnd hodd (List.getElem?_eq_getElem hi) (List.getElem?_eq_getElem h2)
      hk1 hk2 rfl (hne _ (List.getElem_mem _))

/-- C10: the table depends only on the cyclic order of the moves.  For an odd
duplicate-free list, rotating the list by any number of places leaves the entry of every
ordered pair of its labels unchanged. -/
theorem generateRules_rotate (moves : List String) (r : Nat) (a b : String)
    (hodd : moves.length % 2 = 1) (hnd : moves.Nodup)
    (ha : a ∈ moves) (hb : b ∈ moves) :
    lookup (generateRules (moves.rotate r)) a b = lookup (generateRules moves) a b := by
  by_cases hbp : b = protoKey
  · subst hbp
    rw [lookup_proto, lookup_proto]
  have hlen : (moves.rotate r).length = moves.length := List.length_rotate _ _
  have hnd' : (moves.rotate r).Nodup := List.nodup_rotate.2 hnd
  have hodd' : (moves.rotate r).length % 2 = 1 := by rw [hlen]; exact hodd
  have hw : winCount (moves.rotate r) = winCount moves := by
    unfold winCount; rw [hlen]
  have hw0 : winCount moves = (moves.length - 1) / 2 := rfl
  obtain ⟨i, hi⟩ := List.getElem?_of_mem (List.mem_rotate.2 ha)
  obtain ⟨j, hj⟩ := List.getElem?_of_mem (List.mem_rotate.2 hb)
  have hil := (List.getElem?_eq_some.1 hi).1
  have hjl := (List.getElem?_eq_some.1 hj).1
  have hi0 : moves[(i + r) % moves.length]? = some a := by
    rw [← List.getElem?_rotate (hlen ▸ hil)]; exact hi
  have hj0 : moves[(j + r) % moves.length]? = some b := by
    rw [← List.getElem?_rotate (hlen ▸ hjl)]; exact hj
  rcases position_trichotomy hodd' hil hjl with h1 | ⟨k, h1, h2, h4⟩ | ⟨k, h1, h2, h4⟩
  · subst h1
    have hab : a = b := Option.some.inj (hi.symm.trans hj)
    subst hab
    rw [lookup_self hnd' (List.mem_rotate.2 ha) hbp, lookup_self hnd ha hbp]
  · rw [hlen] at h2 h4
    rw [lookup_win hnd' hodd' hi hj h1 (by rw [hw, hw0]; exact h2) (by rw [hlen]; exact h4) hbp,
      lookup_win hnd hodd hi0 hj0 h1 h2 ?_ hbp]
    rw [h4, Nat.mod_add_mod, Nat.mod_add_mod]
    congr 1; omega
  · rw [hlen] at h2 h4
    rw [lookup_lose hnd' hodd' hi hj h1 (by rw [hw, hw0]; exact h2) (by rw [hlen]; exact h4) hbp,
      lookup_lose hnd hodd hi0 hj0 h1 h2 ?_ hbp]
    have e : (i + r) % moves.length + moves.length - k =
        (i + r) % moves.length + (moves.length - k) := by omega
    rw [h4, Nat.mod_add_mod, e, Nat.mod_add_mod]
    congr 1; omega

/-! ## Numbers -/

/-- An upper bound on the binary logarithm. -/
theorem log2Aux_le (fuel : Nat) : ∀ (n k : Nat), n < 2 ^ (k + 1) → log2Aux fuel n ≤ k := by
  induction fuel with
  | zero => intro n k _; simp [log2Aux]
  | succ fuel ih =>
    intro n k h
    unfold log2Aux
    split
    · omega
    · next h2 =>
      cases k with
      | zero => simp at h; omega
      | succ k =>
        have : n / 2 < 2 ^ (k + 1) := by
          rw [Nat.div_lt_iff_lt_mul (by decide)]
          calc n < 2 ^ (k + 1 + 1) := h
            _ = 2 ^ (k + 1) * 2 := by ring
        have := ih (n / 2) k this
        omega

/-- Rounding an integer leaves it unchanged. -/
theorem roundHalfEven_one (p : Nat) : roundHalfEven p 1 = p := by
  simp [roundHalfEven, Nat.mod_one]

/-- Reading an array at `n + 1 - 1` for a natural number `n` below `2 ^ 53` reads the
element at position `n`. -/
theorem arrayGetNumber_ofNat_sub1 (xs : List String) (n : Nat) (h : n < 2 ^ 53) :
    arrayGetNumber xs (JSNumber.ofNat (n + 1)).sub1 = xs[n]? := by
  unfold JSNumber.ofNat JSNumber.sub1
  simp only [Bool.false_eq_true, if_false]
  rw [if_pos (by omega)]
  simp only [Nat.add_sub_cancel]
  unfold roundToDouble
  by_cases h0 : n = 0
  · subst h0; simp [arrayGetNumber]
  · rw [if_neg h0]
    have hl : log2 n ≤ 52 := log2Aux_le n n 52 h
    have he : floorLog2 n 1 ≤ 52 := by
      unfold floorLog2
      have h1 : log2 1 = 0 := by decide
      simp only [h1]
      split <;> split <;> omega
    have hs : (0 : Int) ≤ 52 - max (floorLog2 n 1) (-1022) := by omega
    simp only [hs, if_true]
    rw [roundHalfEven_one]
    have hpos : 0 < 2 ^ (52 - max (floorLog2 n 1) (-1022)).toNat := Nat.two_pow_pos _
    show (if _ ≠ 0 ∧ _ % _ = 0 ∧ (false = false ∨ _ = 0) then xs[_ / _]? else none) = _
    rw [if_pos ⟨by omega, Nat.mul_mod_left _ _, Or.inl rfl⟩, Nat.mul_div_cancel _ hpos]


/-- A decimal digit character has its own value. -/
theorem digitValue_digitChar (k : Nat) (h : k < 10) : digitValue (Nat.digitChar k) = some k := by
  interval_cases k <;> rfl

/-- A decimal digit character is a digit of radix ten. -/
theorem isRadixDigit_digitChar (k : Nat) (h : k < 10) :
    isRadixDigit 10 (Nat.digitChar k) = true := by
  interval_cases k <;> rfl

/-- The code points of the digits of radix ten. -/
theorem digit_range (c : Char) (h : isRadixDigit 10 c = true) :
    48 ≤ c.toNat ∧ c.toNat ≤ 57 := by
  unfold isRadixDigit digitValue at h
  simp only at h
  by_cases h1 : 48 ≤ c.toNat ∧ c.toNat ≤ 57
  · exact h1
  · rw [if_neg h1] at h
    split at h
    · next d hd =>
      simp only [decide_eq_true_eq] at h
      split at hd
      · simp only [Option.some.injEq] at hd; omega
      · split at hd
        · simp only [Option.some.injEq] at hd; omega
        · cases hd
    · cases h

/-- A decimal digit character is not white space. -/
theorem not_ws_of_digit (c : Char) (h : isRadixDigit 10 c = true) :
    isStrWhiteSpaceChar c = false := by
  have := digit_range c h
  unfold isStrWhiteSpaceChar
  simp only [Bool.or_eq_false_iff, decide_eq_false_iff_not, Bool.and_eq_false_iff]
  omega

/-- The digits written by `Nat.repr` are digits of radix ten and read back as the
number. -/
theorem toDigitsCore_spec (fuel : Nat) : ∀ (n : Nat) (ds : List Char), n < fuel →
    (∀ c ∈ ds, isRadixDigit 10 c = true) →
    (∀ c ∈ Nat.toDigitsCore 10 fuel n ds, isRadixDigit 10 c = true) ∧
    Nat.toDigitsCore 10 fuel n ds ≠ [] ∧
    (Nat.toDigitsCore 10 fuel n ds).foldl (fun acc c => acc * 10 + (digitValue c).getD 0) 0 =
      ds.foldl (fun acc c => acc * 10 + (digitValue c).getD 0) n := by
  induction fuel with
  | zero => intro n ds h; omega
  | succ fuel ih =>
    intro n ds hn hds
    have hd : isRadixDigit 10 (Nat.digitChar (n % 10)) = true :=
      isRadixDigit_digitChar _ (Nat.mod_lt _ (by decide))
    have hv : digitValue (Nat.digitChar (n % 10)) = some (n % 10) :=
      digitValue_digitChar _ (Nat.mod_lt _ (by decide))
    have hds1 : ∀ c ∈ Nat.digitChar (n % 10) :: ds, isRadixDigit 10 c = true := by
      intro c hc
      rcases List.mem_cons.1 hc with h | h
      · rw [h]; exact hd
      · exact hds c h
    unfold Nat.toDigitsCore
    simp only
    split
    · next h0 =>
      refine ⟨hds1, by simp, ?_⟩
      simp only [List.foldl_cons, hv, Option.getD_some, Nat.zero_mul, Nat.zero_add]
      congr 1
      omega
    · next h0 =>
      have := ih (n / 10) (Nat.digitChar (n % 10) :: ds) (by omega) hds1
      refine ⟨this.1, this.2.1, ?_⟩
      rw [this.2.2]
      simp only [List.foldl_cons, hv, Option.getD_some]
      congr 1
      omega

/-- The text of a natural number: its characters are digits, there is at least one, and
they read back as the number. -/
theorem toString_nat_spec (n : Nat) :
    (∀ c ∈ (toString n).toList, isRadixDigit 10 c = true) ∧ (toString n).toList ≠ [] ∧
    digitsValue 10 (toString n).toList = n := by
  have := toDigitsCore_spec (n + 1) n [] (by omega) (by simp)
  exact this


/-- Trimming leaves a run of digits unchanged. -/
theorem trimWhiteSpace_digits (ds : List Char) (hds : ∀ c ∈ ds, isRadixDigit 10 c = true) :
    trimWhiteSpace ds = ds := by
  have h1 : ∀ l : List Char, (∀ c ∈ l, isRadixDigit 10 c = true) →
      l.dropWhile isStrWhiteSpaceChar = l := by
    intro l hl
    cases l with
    | nil => rfl
    | cons c t =>
      rw [List.dropWhile_cons_of_neg]
      rw [not_ws_of_digit c (hl c (List.mem_cons_self _ _))]
      simp
  unfold trimWhiteSpace
  rw [h1 ds hds, h1 ds.reverse (fun c hc => hds c (List.mem_reverse.1 hc)), List.reverse_reverse]

/-- A run of digits carries no sign. -/
theorem readSign_digits (ds : List Char) (hds : ∀ c ∈ ds, isRadixDigit 10 c = true) :
    readSign ds = (false, ds) := by
  unfold readSign
  split
  · exact absurd (digit_range _ (hds '-' (by simp))) (by decide)
  · exact absurd (digit_range _ (hds '+' (by simp))) (by decide)
  · rfl

/-- A run of digits carries no mark of radix 16. -/
theorem readHexMark_digits (ds : List Char) (hds : ∀ c ∈ ds, isRadixDigit 10 c = true) :
    readHexMark ds = (10, ds) := by
  unfold readHexMark
  split
  · exact absurd (digit_range _ (hds 'x' (by simp))) (by decide)
  · exact absurd (digit_range _ (hds 'X' (by simp))) (by decide)
  · rfl

/-- A run of digits is no literal of radix 16, 8 or 2. -/
theorem nonDecimalLiteral_digits (ds : List Char)
    (hds : ∀ c ∈ ds, isRadixDigit 10 c = true) : nonDecimalLiteral ds = none := by
  unfold nonDecimalLiteral
  split
  · exact absurd (digit_range _ (hds 'x' (by simp))) (by decide)
  · exact absurd (digit_range _ (hds 'X' (by simp))) (by decide)
  · exact absurd (digit_range _ (hds 'o' (by simp))) (by decide)
  · exact absurd (digit_range _ (hds 'O' (by simp))) (by decide)
  · exact absurd (digit_range _ (hds 'b' (by simp))) (by decide)
  · exact absurd (digit_range _ (hds 'B' (by simp))) (by decide)
  · rfl

/-- Reading a run of digits as a decimal literal gives the double nearest to the number
written. -/
theorem unsignedDecimal_digits (ds : List Char) (hne : ds ≠ [])
    (hds : ∀ c ∈ ds, isRadixDigit 10 c = true) :
    unsignedDecimal false ds = roundToDouble false (digitsValue 10 ds) 1 := by
  have hinf : ds ≠ "Infinity".toList := by
    intro h
    exact absurd (digit_range _ (hds 'I' (by rw [h]; decide))) (by decide)
  have htake : ds.takeWhile (isRadixDigit 10) = ds :=
    List.takeWhile_eq_self_iff.2 hds
  have hdrop : ds.dropWhile (isRadixDigit 10) = [] :=
    List.dropWhile_eq_nil_iff.2 hds
  unfold unsignedDecimal
  rw [if_neg hinf]
  simp only [htake, hdrop, hne, false_and, if_false, exponentPart, List.append_nil,
    List.length_nil, Int.Nat.cast_ofNat_Int, sub_zero, le_refl, if_true, Int.toNat_zero,
    pow_zero, mul_one]

/-- The number of a text that is the decimal numeral of `n`. -/
theorem stringToNumber_toString (n : Nat) :
    stringToNumber (toString n) = roundToDouble false n 1 := by
  obtain ⟨hds, hne, hval⟩ := toString_nat_spec n
  unfold stringToNumber
  simp only
  rw [trimWhiteSpace_digits _ hds, if_neg hne, nonDecimalLiteral_digits _ hds]
  simp only
  rw [readSign_digits _ hds, unsignedDecimal_digits _ hne hds, hval]

/-- The built-in `parseInt` on the decimal numeral of `n`. -/
theorem parseInt_toString (n : Nat) : parseInt (toString n) = some (n : Int) := by
  obtain ⟨hds, hne, hval⟩ := toString_nat_spec n
  have hdrop : (toString n).toList.dropWhile isStrWhiteSpaceChar = (toString n).toList := by
    cases h : (toString n).toList with
    | nil => exact absurd h hne
    | cons c t =>
      rw [List.dropWhile_cons_of_neg]
      rw [not_ws_of_digit c (hds c (by rw [h]; simp))]
      simp
  unfold parseInt
  simp only [hdrop, readSign_digits _ hds, readHexMark_digits _ hds,
    List.takeWhile_eq_self_iff.2 hds, if_neg hne, hval]
  simp


/-- A lower bound on the binary logarithm. -/
theorem le_log2Aux (fuel : Nat) : ∀ (n k : Nat), 2 ^ k ≤ n → k ≤ fuel → k ≤ log2Aux fuel n := by
  induction fuel with
  | zero => intro n k _ h; omega
  | succ fuel ih =>
    intro n k h hk
    cases k with
    | zero => omega
    | succ k =>
      have h2 : 2 ≤ n := by
        calc 2 = 2 ^ 1 := rfl
          _ ≤ 2 ^ (k + 1) := Nat.pow_le_pow_right (by decide) (by omega)
          _ ≤ n := h
      unfold log2Aux
      rw [if_neg (by omega)]
      have h3 : 2 ^ k ≤ n / 2 := by
        rw [Nat.le_div_iff_mul_le (by decide)]
        calc 2 ^ k * 2 = 2 ^ (k + 1) := by ring
          _ ≤ n := h
      have := ih (n / 2) k h3 (by omega)
      omega

/-- Rounding a multiple of the denominator gives back the quotient. -/
theorem roundHalfEven_mul (a q : Nat) (hq : 0 < q) : roundHalfEven (a * q) q = a := by
  unfold roundHalfEven
  simp only [Nat.mul_mod_left, Nat.mul_zero]
  rw [if_pos hq, Nat.mul_div_cancel _ hq]

/-- A natural number below `2 ^ 53`, written as a fraction over a power of two, is held
exactly by a double and indexes an array as itself. -/
theorem arrayGetNumber_round (xs : List String) (m s : Nat) (h : m < 2 ^ 53) :
    arrayGetNumber xs (roundToDouble false (m * 2 ^ s) (2 ^ s)) = xs[m]? := by
  have hq : 0 < 2 ^ s := Nat.two_pow_pos s
  unfold roundToDouble
  by_cases h0 : m = 0
  · subst h0; simp [arrayGetNumber]
  · have hp : m * 2 ^ s ≠ 0 := Nat.mul_ne_zero h0 (by omega)
    rw [if_neg hp]
    have hl1 : log2 (m * 2 ^ s) ≤ 52 + s := by
      apply log2Aux_le
      calc m * 2 ^ s < 2 ^ 53 * 2 ^ s := Nat.mul_lt_mul_of_pos_right h hq
        _ = 2 ^ (52 + s + 1) := by rw [← pow_add]; congr 1; omega
    have hl2 : s ≤ log2 (2 ^ s) :=
      le_log2Aux _ _ _ (le_refl _) (le_of_lt (Nat.lt_two_pow s))
    have he : floorLog2 (m * 2 ^ s) (2 ^ s) ≤ 52 := by
      unfold floorLog2
      simp only
      split <;> split <;> omega
    have hs : (0 : Int) ≤ 52 - max (floorLog2 (m * 2 ^ s) (2 ^ s)) (-1022) := by omega
    simp only [hs, if_true]
    rw [show m * 2 ^ s * 2 ^ (52 - max (floorLog2 (m * 2 ^ s) (2 ^ s)) (-1022)).toNat =
      m * 2 ^ (52 - max (floorLog2 (m * 2 ^ s) (2 ^ s)) (-1022)).toNat * 2 ^ s by ring,
      roundHalfEven_mul _ _ hq]
    have hpos : 0 < 2 ^ (52 - max (floorLog2 (m * 2 ^ s) (2 ^ s)) (-1022)).toNat :=
      Nat.two_pow_pos _
    show (if _ ≠ 0 ∧ _ % _ = 0 ∧ (false = false ∨ _ = 0) then xs[_ / _]? else none) = _
    rw [if_pos ⟨by omega, Nat.mul_mod_left _ _, Or.inl rfl⟩, Nat.mul_div_cancel _ hpos]

/-- A positive natural number below `2 ^ 53` is held exactly by a double. -/
theorem roundToDouble_nat (m : Nat) (h0 : m ≠ 0) (h : m < 2 ^ 53) :
    ∃ s, roundToDouble false m 1 = JSNumber.finite false (m * 2 ^ s) (2 ^ s) := by
  unfold roundToDouble
  rw [if_neg h0]
  have hl : log2 m ≤ 52 := log2Aux_le m m 52 h
  have he : floorLog2 m 1 ≤ 52 := by
    unfold floorLog2
    have h1 : log2 1 = 0 := by decide
    simp only [h1]
    split <;> split <;> omega
  have hs : (0 : Int) ≤ 52 - max (floorLog2 m 1) (-1022) := by omega
  simp only [hs, if_true]
  rw [roundHalfEven_one]
  exact ⟨_, rfl⟩

/-- Reading an array at `line - 1`, where `line` is the decimal numeral of `n + 1`,
reads the element at position `n`. -/
theorem arrayGetNumber_toString_sub1 (xs : List String) (n : Nat) (h : n + 1 < 2 ^ 53) :
    arrayGetNumber xs (stringToNumber (toString (n + 1))).sub1 = xs[n]? := by
  rw [stringToNumber_toString]
  obtain ⟨s, hs⟩ := roundToDouble_nat (n + 1) (by omega) h
  rw [hs]
  unfold JSNumber.sub1
  simp only [Bool.false_eq_true, if_false]
  have hq : 0 < 2 ^ s := Nat.two_pow_pos s
  rw [if_pos (Nat.le_mul_of_pos_left _ (by omega))]
  rw [show (n + 1) * 2 ^ s - 2 ^ s = n * 2 ^ s by rw [Nat.add_mul, Nat.one_mul, Nat.add_sub_cancel]]
  exact arrayGetNumber_round xs n s (by omega)

/-- The decimal numeral of a positive number is neither `0` nor `?`. -/
theorem toString_ne_exit_help (u : Nat) (hu : 1 ≤ u) :
    toString u ≠ "0" ∧ toString u ≠ "?" := by
  obtain ⟨hds, hne, hval⟩ := toString_nat_spec u
  constructor
  · intro h
    rw [h] at hval
    have : digitsValue 10 "0".toList = 0 := by decide
    omega
  · intro h
    rw [h] at hds
    exact absurd (digit_range _ (hds '?' (by decide))) (by decide)

/-! ## `Game` -/

/-- The fields of a constructed game. -/
theorem Game.constructor_eq {hmacSha256 : Bytes → String → Bytes} {moves : List String}
    {key : Bytes} {rnd : Nat} {g : Game} (h : Game.constructor hmacSha256 moves key rnd = some g) :
    ∃ m, moves[rnd]? = some m ∧
      g = ⟨moves, generateRules moves, key, m, generateHMAC hmacSha256 key m⟩ := by
  unfold Game.constructor at h
  cases hm : moves[rnd]? with
  | none => simp [hm] at h
  | some m =>
    simp only [hm, Option.some.injEq] at h
    exact ⟨m, rfl, h.symm⟩

/-- The constructor succeeds for a random index inside the list. -/
theorem Game.constructor_of_lt (hmacSha256 : Bytes → String → Bytes) (moves : List String)
    (key : Bytes) {rnd : Nat} (h : rnd < moves.length) :
    Game.constructor hmacSha256 moves key rnd =
      some ⟨moves, generateRules moves, key, moves[rnd],
        generateHMAC hmacSha256 key moves[rnd]⟩ := by
  unfold Game.constructor
  simp [List.getElem?_eq_getElem h]

/-- The lines logged by `play` when the row of the computer move exists. -/
theorem Game.play_eq {g : Game} {row : Row} (h : assoc g.rules g.computerMove = some row)
    (userMove : JSValue) :
    g.play userMove =
      some (g, ["Your move: " ++ jsString (arrayGetNumber g.moves userMove.toNumber.sub1),
                "Computer move: " ++ g.computerMove,
                resultMessage
                  (lookup g.rules g.computerMove
                    (jsString (arrayGetNumber g.moves userMove.toNumber.sub1))),
                "HMAC key: " ++ toUpperCase (hexString g.key)]) := by
  unfold Game.play lookup
  simp [h]

/-- The method `play` returns the object it was called on. -/
theorem Game.play_fst {g g1 : Game} {userMove : JSValue} {lines : List String}
    (h : g.play userMove = some (g1, lines)) : g1 = g := by
  unfold Game.play at h
  cases hr : assoc g.rules g.computerMove with
  | none => simp [hr] at h
  | some row =>
    simp only [hr, Option.some.injEq, Prod.mk.injEq] at h
    exact h.1.symm

/-- C6, as amended: for a game made by the constructor and an index `u` from `1` to the
number of moves, `play(u)` reads `rules[computerMove][moves[u - 1]]` and logs the phrase
of that value without inverting it: `You win!` for `'Win'`, `You lose!` for `'Lose'`,
`Draw!` for `'Draw'`.  The same lines are logged when `u` arrives as its decimal numeral,
the way the prompt loop passes it.  The bound on the length holds for every array. -/
theorem play_message (hmacSha256 : Bytes → String → Bytes) (moves : List String)
    (key : Bytes) (rnd u : Nat) (g : Game)
    (hg : Game.constructor hmacSha256 moves key rnd = some g)
    (hu1 : 1 ≤ u) (hu2 : u ≤ moves.length) (hlen : moves.length < 2 ^ 53) :
    ∃ userLabel, moves[u - 1]? = some userLabel ∧
      g.play (JSValue.num (JSNumber.ofNat u)) =
        some (g, ["Your move: " ++ userLabel,
                  "Computer move: " ++ g.computerMove,
                  resultMessage (lookup g.rules g.computerMove userLabel),
                  "HMAC key: " ++ toUpperCase (hexString g.key)]) ∧
      g.play (JSValue.str (toString u)) = g.play (JSValue.num (JSNumber.ofNat u)) ∧
      (lookup g.rules g.computerMove userLabel = some Outcome.Win →
        resultMessage (lookup g.rules g.computerMove userLabel) = "You win!") ∧
      (lookup g.rules g.computerMove userLabel = some Outcome.Lose →
        resultMessage (lookup g.rules g.computerMove userLabel) = "You lose!") ∧
      (lookup g.rules g.computerMove userLabel = some Outcome.Draw →
        resultMessage (lookup g.rules g.computerMove userLabel) = "Draw!") := by
  obtain ⟨m, hm, rfl⟩ := Game.constructor_eq hg
  have hu : u - 1 < moves.length := by omega
  obtain ⟨i, hi⟩ := assoc_rulesLoop_of_mem moves m moves 0 [] (List.getElem?_mem hm)
  obtain ⟨n, rfl⟩ : ∃ n, u = n + 1 := ⟨u - 1, by omega⟩
  have h1 : arrayGetNumber moves (JSValue.num (JSNumber.ofNat (n + 1))).toNumber.sub1 =
      some moves[n + 1 - 1] := by
    show arrayGetNumber moves (JSNumber.ofNat (n + 1)).sub1 = _
    rw [arrayGetNumber_ofNat_sub1 _ _ (by omega)]
    exact List.getElem?_eq_getElem hu
  have h2 : arrayGetNumber moves (JSValue.str (toString (n + 1))).toNumber.sub1 =
      some moves[n + 1 - 1] := by
    show arrayGetNumber moves (stringToNumber (toString (n + 1))).sub1 = _
    rw [arrayGetNumber_toString_sub1 _ _ (by omega)]
    exact List.getElem?_eq_getElem hu
  refine ⟨moves[n + 1 - 1], List.getElem?_eq_getElem hu, ?_, ?_, ?_, ?_, ?_⟩
  · rw [Game.play_eq hi]
    simp only [h1, jsString, Option.getD_some]
  · rw [Game.play_eq hi, Game.play_eq hi]
    simp only [h1, h2]
  · intro h; rw [h]; rfl
  · intro h; rw [h]; rfl
  · intro h; rw [h]; rfl

/-- C8: for a game made by the constructor, with HMAC-SHA256 a fixed function, the field
`hmac` is `generateHMAC(key, computerMove)` of the fields of the same object, the
computer move is one of the moves, `displayHMAC`, `displayMenu`, `displayHelp` and
`play` return the object unchanged, and `play` reveals that computer move and that key:
the pair the digest printed by `displayHMAC` was computed over. -/
theorem game_commitment (hmacSha256 : Bytes → String → Bytes) (moves : List String)
    (key : Bytes) (rnd : Nat) (hrnd : rnd < moves.length) :
    ∃ g, Game.constructor hmacSha256 moves key rnd = some g ∧
      g.moves = moves ∧ g.key = key ∧
      g.hmac = generateHMAC hmacSha256 g.key g.computerMove ∧
      g.computerMove ∈ g.moves ∧
      g.displayHMAC = (g, ["HMAC: " ++ generateHMAC hmacSha256 g.key g.computerMove]) ∧
      (g.displayMenu).1 = g ∧
      (∀ d, (g.displayHelp d).1 = g) ∧
      ∀ userMove, ∃ yourLine resultLine,
        g.play userMove =
          some (g, [yourLine, "Computer move: " ++ g.computerMove, resultLine,
                    "HMAC key: " ++ toUpperCase (hexString g.key)]) := by
  refine ⟨_, Game.constructor_of_lt hmacSha256 moves key hrnd, rfl, rfl, rfl,
    List.getElem_mem _, rfl, rfl, fun _ => rfl, ?_⟩
  intro userMove
  obtain ⟨i, hi⟩ := assoc_rulesLoop_of_mem moves moves[rnd] moves 0 [] (List.getElem_mem _)
  exact ⟨_, _, Game.play_eq hi userMove⟩

/-! ## `main` -/

/-- Adding strings to a set adds at most one element per string. -/
theorem newSet_aux_le (args : List String) : ∀ s : List String,
    (args.foldl (fun s x => if x ∈ s then s else s ++ [x]) s).length ≤
      s.length + args.length := by
  induction args with
  | nil => intro s; simp
  | cons x t ih =>
    intro s
    simp only [List.foldl_cons, List.length_cons]
    by_cases hx : x ∈ s
    · simp only [hx, if_true]
      have := ih s
      omega
    · simp only [hx, if_false]
      have := ih (s ++ [x])
      simp only [List.length_append, List.length_singleton] at this
      omega

/-- Adding strings to a set adds one element per string exactly when the strings are
pairwise distinct and new to the set. -/
theorem newSet_aux_eq (args : List String) : ∀ s : List String,
    (args.foldl (fun s x => if x ∈ s then s else s ++ [x]) s).length =
      s.length + args.length ↔ (args.Nodup ∧ ∀ x ∈ args, x ∉ s) := by
  induction args with
  | nil => intro s; simp
  | cons x t ih =>
    intro s
    simp only [List.foldl_cons, List.length_cons, List.nodup_cons, List.mem_cons,
      forall_eq_or_imp]
    by_cases hx : x ∈ s
    · simp only [hx, if_true, not_true_eq_false, false_and, and_false, iff_false]
      have := newSet_aux_le t s
      omega
    · simp only [hx, if_false, not_false_eq_true, true_and]
      have h1 := ih (s ++ [x])
      simp only [List.length_append, List.length_singleton, List.mem_append,
        List.mem_singleton, not_or] at h1
      rw [show s.length + (t.length + 1) = s.length + 1 + t.length by omega, h1]
      constructor
      · rintro ⟨h2, h3⟩
        exact ⟨⟨fun hxt => (h3 x hxt).2 rfl, h2⟩, fun y hy => (h3 y hy).1⟩
      · rintro ⟨⟨h2, h3⟩, h4⟩
        exact ⟨h3, fun y hy => ⟨h4 y hy, fun e => h2 (e ▸ hy)⟩⟩

/-- The size of `new Set(args)` is the number of arguments exactly when no two are equal. -/
theorem newSet_length_eq_iff (args : List String) :
    (newSet args).length = args.length ↔ args.Nodup := by
  have := newSet_aux_eq args []
  simp only [List.length_nil, Nat.zero_add, List.not_mem_nil, not_false_eq_true,
    implies_true, and_true] at this
  exact this

/-- The prompt loop hands back the game it was given. -/
theorem askMove_game (d : Display) (args : List String) (game : Game) :
    ∀ (lines out : List String), (askMove d args game lines out).game = some game := by
  intro lines
  induction lines with
  | nil => intro out; rfl
  | cons input rest ih =>
    intro out
    unfold askMove
    simp only
    split
    · rfl
    · split
      · exact ih _
      · split
        · split
          · next g1 l1 hp => rw [Game.play_fst hp]
          · rfl
        · exact ih _

/-- The prompt loop writes nothing to standard error and never exits with status 1. -/
theorem askMove_no_reject (d : Display) (args : List String) (game : Game) :
    ∀ (lines out : List String), (askMove d args game lines out).stderr = [] ∧
      (askMove d args game lines out).ending ≠ Ending.exited 1 := by
  intro lines
  induction lines with
  | nil => intro out; exact ⟨rfl, by simp [askMove]⟩
  | cons input rest ih =>
    intro out
    unfold askMove
    simp only
    split
    · exact ⟨rfl, by simp⟩
    · split
      · exact ih _
      · split
        · split
          · exact ⟨rfl, by simp⟩
          · exact ⟨rfl, by simp⟩
        · exact ih _

/-- X6: a line reaches `play` only when it is one of the lines typed and `parseInt` reads
from it an integer from `1` to the number of arguments. -/
theorem askMove_played (d : Display) (args : List String) (game : Game) :
    ∀ (lines out : List String) (input : String),
      (askMove d args game lines out).played = some input →
      input ∈ lines ∧ ∃ n : Int, parseInt input = some n ∧ 0 < n ∧ n ≤ (args.length : Int) := by
  intro lines
  induction lines with
  | nil => intro out input h; simp [askMove] at h
  | cons line rest ih =>
    intro out input h
    unfold askMove at h
    simp only at h
    split at h
    · simp at h
    · split at h
      · obtain ⟨h1, h2⟩ := ih _ _ h
        exact ⟨List.mem_cons_of_mem _ h1, h2⟩
      · split at h
        · next hacc =>
          have hin : line = input := by
            split at h <;> simpa using h
          subst hin
          refine ⟨List.mem_cons_self _ _, ?_⟩
          cases hp : parseInt line with
          | none => simp [hp] at hacc
          | some n =>
            simp only [hp, decide_eq_true_eq] at hacc
            exact ⟨n, rfl, hacc.1, hacc.2⟩
        · obtain ⟨h1, h2⟩ := ih _ _ h
          exact ⟨List.mem_cons_of_mem _ h1, h2⟩

/-- X7: for a game made by the constructor over the arguments and an index `u` from `1`
to the number of moves, the prompt loop accepts the decimal numeral of `u`, hands it to
`play`, and the round is resolved against `moves[u - 1]`: the lines logged name that
move and the phrase of `rules[computerMove][moves[u - 1]]`, and the run ends by closing
the prompt. -/
theorem askMove_decimal_line (d : Display) (hmacSha256 : Bytes → String → Bytes)
    (moves : List String) (key : Bytes) (rnd u : Nat) (g : Game) (rest out : List String)
    (hg : Game.constructor hmacSha256 moves key rnd = some g)
    (hu1 : 1 ≤ u) (hu2 : u ≤ moves.length) (hlen : moves.length < 2 ^ 53) :
    ∃ userLabel, moves[u - 1]? = some userLabel ∧
      askMove d moves g (toString u :: rest) out =
        ⟨some g,
         out ++ ["Enter your move: "] ++
           ["Your move: " ++ userLabel,
            "Computer move: " ++ g.computerMove,
            resultMessage (lookup g.rules g.computerMove userLabel),
            "HMAC key: " ++ toUpperCase (hexString g.key)],
         [], some (toString u), Ending.closed⟩ := by
  obtain ⟨m, hm, rfl⟩ := Game.constructor_eq hg
  have hu : u - 1 < moves.length := by omega
  obtain ⟨i, hi⟩ := assoc_rulesLoop_of_mem moves m moves 0 [] (List.getElem?_mem hm)
  refine ⟨moves[u - 1], List.getElem?_eq_getElem hu, ?_⟩
  have hne := toString_ne_exit_help u hu1
  have hplay := @Game.play_eq
    ⟨moves, generateRules moves, key, m, generateHMAC hmacSha256 key m⟩ _ hi
    (JSValue.str (toString u))
  have h1 : arrayGetNumber moves (JSValue.str (toString u)).toNumber.sub1 =
      some moves[u - 1] := by
    show arrayGetNumber moves (stringToNumber (toString u)).sub1 = _
    obtain ⟨n, rfl⟩ : ∃ n, u = n + 1 := ⟨u - 1, by omega⟩
    rw [arrayGetNumber_toString_sub1 _ _ (by omega)]
    exact List.getElem?_eq_getElem hu
  simp only [h1, jsString, Option.getD_some] at hplay
  unfold askMove
  simp only [hne.1, hne.2, if_false, parseInt_toString]
  have hacc : decide (0 < (u : Int) ∧ (u : Int) ≤ (moves.length : Int)) = true := by
    rw [decide_eq_true_eq]; omega
  simp only [hacc, if_true, hplay]

/-- C7: for every argument list, `main` rejects it, writing the error and exiting with
status 1 with no game constructed, exactly when there are fewer than three labels, an
even number of labels, or two equal labels; a run ends with status 1 in that case only;
otherwise, the random index lying inside the list, a game is constructed over exactly
the arguments. -/
theorem main_validation (d : Display) (hmacSha256 : Bytes → String → Bytes)
    (args : List String) (key : Bytes) (rnd : Nat) (lines : List String) :
    (main d hmacSha256 args key rnd lines = ⟨none, [], [usageError], none, Ending.exited 1⟩ ↔
      (args.length < 3 ∨ args.length % 2 = 0 ∨ ¬ args.Nodup)) ∧
    ((main d hmacSha256 args key rnd lines).ending = Ending.exited 1 ↔
      (args.length < 3 ∨ args.length % 2 = 0 ∨ ¬ args.Nodup)) ∧
    (¬ (args.length < 3 ∨ args.length % 2 = 0 ∨ ¬ args.Nodup) → rnd < args.length →
      ∃ g, Game.constructor hmacSha256 args key rnd = some g ∧ g.moves = args ∧
        g.rules = generateRules args ∧
        (main d hmacSha256 args key rnd lines).game = some g ∧
        (main d hmacSha256 args key rnd lines).stderr = [] ∧
        (main d hmacSha256 args key rnd lines).ending ≠ Ending.exited 1) := by
  have hcond : (args.length < 3 ∨ args.length % 2 = 0 ∨ (newSet args).length ≠ args.length) ↔
      (args.length < 3 ∨ args.length % 2 = 0 ∨ ¬ args.Nodup) := by
    rw [Ne, newSet_length_eq_iff]
  have hbad : (args.length < 3 ∨ args.length % 2 = 0 ∨ ¬ args.Nodup) →
      main d hmacSha256 args key rnd lines =
        ⟨none, [], [usageError], none, Ending.exited 1⟩ := by
    intro h
    unfold main
    rw [if_pos (hcond.2 h)]
  have hending : ¬ (args.length < 3 ∨ args.length % 2 = 0 ∨ ¬ args.Nodup) →
      (main d hmacSha256 args key rnd lines).ending ≠ Ending.exited 1 := by
    intro hn
    unfold main
    rw [if_neg (fun h => hn (hcond.1 h))]
    cases hc : Game.constructor hmacSha256 args key rnd with
    | none => simp
    | some game => exact (askMove_no_reject _ _ _ _ _).2
  refine ⟨⟨?_, hbad⟩, ⟨?_, ?_⟩, ?_⟩
  · intro h
    by_contra hn
    exact hending hn (by rw [h])
  · intro h
    by_contra hn
    exact hending hn h
  · intro h
    rw [hbad h]
  · intro hn hrnd
    have hgood : main d hmacSha256 args key rnd lines =
        askMove d args ⟨args, generateRules args, key, args[rnd],
            generateHMAC hmacSha256 key args[rnd]⟩ lines
          ((Game.displayHMAC ⟨args, generateRules args, key, args[rnd],
            generateHMAC hmacSha256 key args[rnd]⟩).2 ++
           (Game.displayMenu ⟨args, generateRules args, key, args[rnd],
            generateHMAC hmacSha256 key args[rnd]⟩).2) := by
      unfold main
      rw [if_neg (fun h => hn (hcond.1 h)), Game.constructor_of_lt hmacSha256 args key hrnd]
    refine ⟨_, Game.constructor_of_lt hmacSha256 args key hrnd, rfl, rfl, ?_, ?_, ?_⟩
    · rw [hgood]; exact askMove_game _ _ _ _ _
    · rw [hgood]; exact (askMove_no_reject _ _ _ _ _).1
    · rw [hgood]; exact (askMove_no_reject _ _ _ _ _).2

/-! ## The table at concrete move lists -/

/-- C5, as amended: for the moves `rock`, `paper`, `scissors` the table has
`rules["rock"]["paper"] = 'Win'`, `rules["rock"]["scissors"] = 'Lose'` and
`rules["rock"]["rock"] = 'Draw'`. -/
theorem rps3_rock_row :
    lookup (generateRules rps3) "rock" "paper" = some Outcome.Win ∧
    lookup (generateRules rps3) "rock" "scissors" = some Outcome.Lose ∧
    lookup (generateRules rps3) "rock" "rock" = some Outcome.Draw := by
  decide

/-- C5 as stated fails: the row of `rock` does not hold `'Win'` at `scissors` and
`'Lose'` at `paper`. -/
theorem rps3_rock_row_not_as_claimed :
    ¬ (lookup (generateRules rps3) "rock" "scissors" = some Outcome.Win ∧
       lookup (generateRules rps3) "rock" "paper" = some Outcome.Lose ∧
       lookup (generateRules rps3) "rock" "rock" = some Outcome.Draw) := by
  decide

/-- X5: over the five moves the row of `rock` has `'Win'` at
`paper` and `scissors`, `'Lose'` at `spock` and `lizard`, and `'Draw'` at `rock`. -/
theorem rps5_rock_row :
    lookup (generateRules rps5) "rock" "paper" = some Outcome.Win ∧
    lookup (generateRules rps5) "rock" "scissors" = some Outcome.Win ∧
    lookup (generateRules rps5) "rock" "spock" = some Outcome.Lose ∧
    lookup (generateRules rps5) "rock" "lizard" = some Outcome.Lose ∧
    lookup (generateRules rps5) "rock" "rock" = some Outcome.Draw := by
  decide

/-- C1 at the failing input: over the three distinct labels `__proto__`, `a`, `b` the
row of `a` holds one `'Win'` and no `'Lose'`, where the claim asks for one of each. -/
theorem proto_counts :
    protoMoves.length = 3 ∧ protoMoves.Nodup ∧ "a" ∈ protoMoves ∧
    countOutcome (generateRules protoMoves) protoMoves "a" Outcome.Win = 1 ∧
    countOutcome (generateRules protoMoves) protoMoves "a" Outcome.Lose = 0 := by
  decide

/-- C2 at the failing input: over the three distinct labels `__proto__`, `a`, `b` the
entry of `__proto__` against `a` is `'Win'` while the entry of `a` against `__proto__`
is none of the three results, where the claim asks for `'Lose'`. -/
theorem proto_not_opposite :
    protoMoves.length = 3 ∧ protoMoves.Nodup ∧ "a" ∈ protoMoves ∧ "__proto__" ∈ protoMoves ∧
    lookup (generateRules protoMoves) "__proto__" "a" = some Outcome.Win ∧
    lookup (generateRules protoMoves) "a" "__proto__" = none := by
  decide

/-- C3 at the failing input: over the three distinct labels `__proto__`, `a`, `b` the
diagonal entry of `__proto__` is none of the three results, where the claim asks for
`'Draw'`. -/
theorem proto_diagonal :
    protoMoves.length = 3 ∧ protoMoves.Nodup ∧ "__proto__" ∈ protoMoves ∧
    lookup (generateRules protoMoves) "__proto__" "__proto__" ≠ some Outcome.Draw := by
  decide

/-- C4 at the failing input: over the three distinct labels `__proto__`, `a`, `b`, with
`i = 1` and `k = 1`, the entry of `moves[1]` against `moves[(1 - 1) mod 3]` is not
`'Lose'`. -/
theorem proto_offset :
    protoMoves.length = 3 ∧ protoMoves.Nodup ∧
    protoMoves[1]? = some "a" ∧ protoMoves[(1 + 3 - 1) % 3]? = some "__proto__" ∧
    lookup (generateRules protoMoves) "a" "__proto__" ≠ some Outcome.Lose := by
  decide

/-! ## Rounds at concrete inputs -/

/-- C6 as stated fails: over `rock`, `paper`, `scissors` with the computer holding
`paper`, the user index `1` (rock) reads `'Lose'` from the table and `play` logs
`You lose!`; no line `You win!` is logged. -/
theorem play_paper_rock :
    Game.constructor sampleHmac rps3 [171, 205] 1 = some paperGame ∧
    lookup paperGame.rules paperGame.computerMove "rock" = some Outcome.Lose ∧
    paperGame.play (JSValue.num (JSNumber.ofNat 1)) =
      some (paperGame,
        ["Your move: rock", "Computer move: paper", "You lose!", "HMAC key: ABCD"]) ∧
    paperGame.play (JSValue.str "1") =
      some (paperGame,
        ["Your move: rock", "Computer move: paper", "You lose!", "HMAC key: ABCD"]) ∧
    "You win!" ∉ ["Your move: rock", "Computer move: paper", "You lose!", "HMAC key: ABCD"] := by
  decide

/-- C9 at the failing input: with the moves `rock`, `paper`, `scissors` the prompt loop
accepts the line `2abc`, because `parseInt` reads `2` from it, and hands it to `play`;
the line is not numeric (its number is `NaN`), `moves[NaN]` is `undefined`, and the
round is resolved as `Draw!` against no move of the list. -/
theorem main_accepts_2abc :
    parseInt "2abc" = some 2 ∧ stringToNumber "2abc" = JSNumber.nan ∧
    arrayGetNumber rps3 (stringToNumber "2abc").sub1 = none ∧
    main sampleDisplay sampleHmac rps3 [171, 205] 1 ["2abc"] =
      ⟨some paperGame,
       ["HMAC: ABCD", "Available moves:", "1 - rock", "2 - paper", "3 - scissors",
        "0 - exit", "? - help", "Enter your move: ",
        "Your move: undefined", "Computer move: paper", "Draw!", "HMAC key: ABCD"],
       [], some "2abc", Ending.closed⟩ := by
  decide

/-! ## The general statements at concrete inputs -/

/-- The count of wins and losses in the row of `lizard` over the five moves. -/
theorem generateRules_counts_witness :
    (rps5.length % 2 = 1 ∧ rps5.Nodup ∧ protoKey ∉ rps5 ∧ "lizard" ∈ rps5) ∧
    countOutcome (generateRules rps5) rps5 "lizard" Outcome.Win = (rps5.length - 1) / 2 ∧
    countOutcome (generateRules rps5) rps5 "lizard" Outcome.Lose = (rps5.length - 1) / 2 :=
  ⟨by decide,
   generateRules_counts rps5 "lizard" (by decide) (by decide) (by decide) (by decide)⟩

/-- The entries of `paper` and `spock` against each other over the five moves. -/
theorem generateRules_opposite_witness :
    (rps5.length % 2 = 1 ∧ rps5.Nodup ∧ protoKey ∉ rps5 ∧ "paper" ∈ rps5 ∧ "spock" ∈ rps5 ∧
      "paper" ≠ "spock") ∧
    ((lookup (generateRules rps5) "paper" "spock" = some Outcome.Win ∧
      lookup (generateRules rps5) "spock" "paper" = some Outcome.Lose) ∨
     (lookup (generateRules rps5) "paper" "spock" = some Outcome.Lose ∧
      lookup (generateRules rps5) "spock" "paper" = some Outcome.Win)) :=
  ⟨by decide,
   generateRules_opposite rps5 "paper" "spock" (by decide) (by decide) (by decide) (by decide)
     (by decide) (by decide)⟩

/-- No draw between `paper` and `spock` over the five moves. -/
theorem generateRules_draw_iff_witness :
    (rps5.length % 2 = 1 ∧ rps5.Nodup ∧ protoKey ∉ rps5 ∧ "paper" ∈ rps5 ∧ "spock" ∈ rps5) ∧
    (lookup (generateRules rps5) "paper" "spock" = some Outcome.Draw ↔ "paper" = "spock") :=
  ⟨by decide,
   generateRules_draw_iff rps5 "paper" "spock" (by decide) (by decide) (by decide) (by decide)
     (by decide)⟩

/-- The moves two places ahead of and behind `rock` over the five moves. -/
theorem generateRules_offsets_witness :
    (rps5.length % 2 = 1 ∧ rps5.Nodup ∧ protoKey ∉ rps5 ∧ 0 < rps5.length ∧ 1 ≤ 2 ∧
      2 ≤ (rps5.length - 1) / 2) ∧
    ∃ a b c, rps5[0]? = some a ∧ rps5[(0 + 2) % rps5.length]? = some b ∧
      rps5[(0 + rps5.length - 2) % rps5.length]? = some c ∧
      lookup (generateRules rps5) a b = some Outcome.Win ∧
      lookup (generateRules rps5) a c = some Outcome.Lose :=
  ⟨by decide,
   generateRules_offsets rps5 0 2 (by decide) (by decide) (by decide) (by decide) (by decide)
     (by decide)⟩

/-- The five moves rotated by two places give `rock` the same entry against `spock`. -/
theorem generateRules_rotate_witness :
    (rps5.length % 2 = 1 ∧ rps5.Nodup ∧ "rock" ∈ rps5 ∧ "spock" ∈ rps5) ∧
    lookup (generateRules (rps5.rotate 2)) "rock" "spock" =
      lookup (generateRules rps5) "rock" "spock" :=
  ⟨by decide,
   generateRules_rotate rps5 2 "rock" "spock" (by decide) (by decide) (by decide) (by decide)⟩

/-- The round of `paper` against the user index `1` over the three moves. -/
theorem play_message_witness :
    (Game.constructor sampleHmac rps3 [171, 205] 1 = some paperGame ∧ 1 ≤ 1 ∧
      1 ≤ rps3.length ∧ rps3.length < 2 ^ 53) ∧
    ∃ userLabel, rps3[1 - 1]? = some userLabel ∧
      paperGame.play (JSValue.num (JSNumber.ofNat 1)) =
        some (paperGame, ["Your move: " ++ userLabel,
                  "Computer move: " ++ paperGame.computerMove,
                  resultMessage (lookup paperGame.rules paperGame.computerMove userLabel),
                  "HMAC key: " ++ toUpperCase (hexString paperGame.key)]) ∧
      paperGame.play (JSValue.str (toString 1)) =
        paperGame.play (JSValue.num (JSNumber.ofNat 1)) ∧
      (lookup paperGame.rules paperGame.computerMove userLabel = some Outcome.Win →
        resultMessage (lookup paperGame.rules paperGame.computerMove userLabel) = "You win!") ∧
      (lookup paperGame.rules paperGame.computerMove userLabel = some Outcome.Lose →
        resultMessage (lookup paperGame.rules paperGame.computerMove userLabel) = "You lose!") ∧
      (lookup paperGame.rules paperGame.computerMove userLabel = some Outcome.Draw →
        resultMessage (lookup paperGame.rules paperGame.computerMove userLabel) = "Draw!") :=
  ⟨by decide,
   play_message sampleHmac rps3 [171, 205] 1 1 paperGame (by decide) (by decide) (by decide)
     (by decide)⟩

/-- The commitment of the game over the three moves with random index `1`. -/
theorem game_commitment_witness :
    1 < rps3.length ∧
    ∃ g, Game.constructor sampleHmac rps3 [171, 205] 1 = some g ∧
      g.moves = rps3 ∧ g.key = [171, 205] ∧
      g.hmac = generateHMAC sampleHmac g.key g.computerMove ∧
      g.computerMove ∈ g.moves ∧
      g.displayHMAC = (g, ["HMAC: " ++ generateHMAC sampleHmac g.key g.computerMove]) ∧
      (g.displayMenu).1 = g ∧
      (∀ d, (g.displayHelp d).1 = g) ∧
      ∀ userMove, ∃ yourLine resultLine,
        g.play userMove =
          some (g, [yourLine, "Computer move: " ++ g.computerMove, resultLine,
                    "HMAC key: " ++ toUpperCase (hexString g.key)]) :=
  ⟨by decide, game_commitment sampleHmac rps3 [171, 205] 1 (by decide)⟩

/-- The empty argument list, a single label, `a b` and `a a b` are rejected; over
`rock paper scissors` a game is constructed. -/
theorem main_validation_witness :
    main sampleDisplay sampleHmac [] [] 0 [] =
      ⟨none, [], [usageError], none, Ending.exited 1⟩ ∧
    main sampleDisplay sampleHmac ["rock"] [] 0 [] =
      ⟨none, [], [usageError], none, Ending.exited 1⟩ ∧
    main sampleDisplay sampleHmac ["a", "b"] [] 0 [] =
      ⟨none, [], [usageError], none, Ending.exited 1⟩ ∧
    main sampleDisplay sampleHmac ["a", "a", "b"] [] 0 [] =
      ⟨none, [], [usageError], none, Ending.exited 1⟩ ∧
    (¬ (rps3.length < 3 ∨ rps3.length % 2 = 0 ∨ ¬ rps3.Nodup) ∧ 1 < rps3.length) ∧
    ∃ g, Game.constructor sampleHmac rps3 [171, 205] 1 = some g ∧ g.moves = rps3 ∧
      g.rules = generateRules rps3 ∧
      (main sampleDisplay sampleHmac rps3 [171, 205] 1 ["0"]).game = some g ∧
      (main sampleDisplay sampleHmac rps3 [171, 205] 1 ["0"]).stderr = [] ∧
      (main sampleDisplay sampleHmac rps3 [171, 205] 1 ["0"]).ending ≠ Ending.exited 1 :=
  ⟨(main_validation sampleDisplay sampleHmac [] [] 0 []).1.2 (by decide),
   (main_validation sampleDisplay sampleHmac ["rock"] [] 0 []).1.2 (by decide),
   (main_validation sampleDisplay sampleHmac ["a", "b"] [] 0 []).1.2 (by decide),
   (main_validation sampleDisplay sampleHmac ["a", "a", "b"] [] 0 []).1.2 (by decide),
   by decide,
   (main_validation sampleDisplay sampleHmac rps3 [171, 205] 1 ["0"]).2.2 (by decide)
     (by decide)⟩

/-- After an invalid line and a request for help, the line `2` reaches `play`. -/
theorem askMove_played_witness :
    (askMove sampleDisplay rps3 paperGame ["x", "?", "2"] []).played = some "2" ∧
    "2" ∈ ["x", "?", "2"] ∧
    ∃ n : Int, parseInt "2" = some n ∧ 0 < n ∧ n ≤ (rps3.length : Int) :=
  ⟨by decide,
   askMove_played sampleDisplay rps3 paperGame ["x", "?", "2"] [] "2" (by decide)⟩

/-- Over the three moves with the computer holding `paper`, the line `3` is played
against `scissors`. -/
theorem askMove_decimal_line_witness :
    (Game.constructor sampleHmac rps3 [171, 205] 1 = some paperGame ∧ 1 ≤ 3 ∧
      3 ≤ rps3.length ∧ rps3.length < 2 ^ 53) ∧
    ∃ userLabel, rps3[3 - 1]? = some userLabel ∧
      askMove sampleDisplay rps3 paperGame (toString 3 :: []) [] =
        ⟨some paperGame,
         [] ++ ["Enter your move: "] ++
           ["Your move: " ++ userLabel,
            "Computer move: " ++ paperGame.computerMove,
            resultMessage (lookup paperGame.rules paperGame.computerMove userLabel),
            "HMAC key: " ++ toUpperCase (hexString paperGame.key)],
         [], some (toString 3), Ending.closed⟩ :=
  ⟨by decide,
   askMove_decimal_line sampleDisplay sampleHmac rps3 [171, 205] 1 3 paperGame [] []
     (by decide) (by decide) (by decide) (by decide)⟩

end RPS
